import Mathlib

/- Verification of the bricks OpenAPIv3 code generator (package generator).
The orchestration layer (Generator, BuildSchema, BuildSource, loadSwaggerFromURI)
is embedded from the source file; the two pipeline stages (BuildTypes, BuildHandler)
and the schema data model are modelled from the specification, since only their
call sites appear in the available source. -/

/-- Modelled from the spec: SchemaNode is a tagged variant over primitive, object
(ordered field mapping), array (element node) and reference (name of another node).
The openapi3 document types are external to the repository. -/
inductive SchemaNode where
  | prim (kind : String)
  | obj (fields : List (String × SchemaNode))
  | arr (elem : SchemaNode)
  | ref (name : String)
  deriving Repr

abbrev Schemas := List (String × SchemaNode)

/-- Lookup of a named schema definition in the component schemas of a document. -/
def lookupSchema (schemas : Schemas) (name : String) : Option SchemaNode :=
  match schemas with
  | [] => none
  | (k, v) :: rest => if k = name then some v else lookupSchema rest name

/-- Number of schema definitions whose name is not yet in the visited set.
Termination measure for the type resolver. -/
def unresolvedCount (schemas : Schemas) (tys : List String) : Nat :=
  match schemas with
  | [] => 0
  | (k, _) :: rest => (if k ∈ tys then 0 else 1) + unresolvedCount rest tys

theorem unresolvedCount_mono (schemas : Schemas) (tys tys' : List String)
    (h : tys ⊆ tys') :
    unresolvedCount schemas tys' ≤ unresolvedCount schemas tys := by
  induction schemas with
  | nil => simp [unresolvedCount]
  | cons a t ih =>
    simp only [unresolvedCount]
    by_cases hm : a.1 ∈ tys
    · simp [hm, h hm]
      omega
    · by_cases hm' : a.1 ∈ tys'
      · simp [hm, hm']
        omega
      · simp [hm, hm']
        omega

theorem unresolvedCount_cons_lt (schemas : Schemas) (tys : List String) (name : String)
    (hmem : ∃ v, lookupSchema schemas name = some v) (hnot : name ∉ tys) :
    unresolvedCount schemas (name :: tys) < unresolvedCount schemas tys := by
  induction schemas with
  | nil => simp [lookupSchema] at hmem
  | cons a t ih =>
    obtain ⟨v, hv⟩ := hmem
    simp only [lookupSchema] at hv
    simp only [unresolvedCount]
    by_cases hk : a.1 = name
    · -- the head entry is the named schema: counted before, not counted after
      have h1 : a.1 ∈ name :: tys := by simp [hk]
      have h2 : a.1 ∉ tys := hk ▸ hnot
      simp only [h1, h2, if_pos, if_neg, if_true, if_false]
      have := unresolvedCount_mono t tys (name :: tys) (List.subset_cons_self name tys)
      omega
    · rw [if_neg hk] at hv
      have hlt := ih ⟨v, hv⟩
      by_cases hm : a.1 ∈ tys
      · have hm' : a.1 ∈ name :: tys := List.mem_cons_of_mem _ hm
        simp only [hm, hm', if_true, if_pos]
        omega
      · have hm' : a.1 ∉ name :: tys := by
          simp only [List.mem_cons]
          rintro (h | h)
          · exact hk h
          · exact hm h
        simp only [hm, hm', if_neg, if_false]
        omega

theorem lookupSchema_mem (schemas : Schemas) (name : String) (v : SchemaNode)
    (h : lookupSchema schemas name = some v) : (name, v) ∈ schemas := by
  induction schemas with
  | nil => simp [lookupSchema] at h
  | cons a t ih =>
    simp only [lookupSchema] at h
    by_cases hk : a.1 = name
    · rw [if_pos hk] at h
      cases a
      simp only at hk h
      injection h with h
      simp [hk, h]
    · rw [if_neg hk] at h
      exact List.mem_cons_of_mem _ (ih h)

/-- Modelled from the spec: a named operation parameter with a location
(path, query or header), a required flag and a SchemaNode type. -/
structure Param where
  name : String
  loc : String
  required : Bool
  schema : SchemaNode
  deriving Repr

/-- Modelled from the spec: an Operation has an operation identifier, named
parameters and an optional request or response body SchemaNode. -/
structure Operation where
  opId : String
  method : String
  params : List Param
  body : Option SchemaNode
  deriving Repr

/-- Modelled from the spec: a PathItem is a URL path template plus an ordered
method-to-Operation mapping. -/
structure PathItem where
  path : String
  ops : List Operation
  deriving Repr

/-- Modelled from the spec: the parsed API description, a mapping from named
schema identifiers to SchemaNodes plus an ordered collection of PathItems.
Stands in for the external openapi3.Swagger document object. -/
structure SchemaDocument where
  schemas : Schemas
  paths : List PathItem
  deriving Repr

/-- All operations of a document, in document order. -/
def operations (d : SchemaDocument) : List Operation :=
  (d.paths.map PathItem.ops).flatten

/-- Rendered output type expression for one schema node. -/
inductive TypeExpr where
  | scalar (goName : String)
  | named (n : String)
  | arrayOf (t : TypeExpr)
  | structOf (fields : List (String × TypeExpr))
  deriving Repr

/-- One declaration accumulated in the emission buffer. -/
inductive Decl where
  | typeDecl (name : String) (body : TypeExpr)
  | arrayDecl (elemName : String)
  | handlerDecl (name : String)
  deriving Repr

/-- Error kinds surfaced by the generator pipeline. -/
inductive Err where
  | load (msg : String)
  | unsupportedPrimitive (kind : String)
  | namingCollision (name : String)
  deriving Repr

/-- Model of the jen.File emission buffer: package identity, top-of-file package
comments, import aliases and accumulated declarations, serialized at the end. -/
structure EmissionFile where
  packagePath : String
  packageName : String
  packageComments : List String
  importAliases : List (String × String)
  decls : List Decl
  deriving Repr

/-- Model of jen.NewFilePathName: a fresh, empty emission buffer. -/
def newFilePathName (packagePath packageName : String) : EmissionFile :=
  ⟨packagePath, packageName, [], [], []⟩

/-- Model of jen File.PackageComment: adds a comment rendered at the top of the
file, above the package clause. -/
def packageComment (f : EmissionFile) (c : String) : EmissionFile :=
  { f with packageComments := f.packageComments ++ [c] }

/-- Model of jen File.ImportAlias: registers a fixed alias for an import path. -/
def importAlias (f : EmissionFile) (path al : String) : EmissionFile :=
  { f with importAliases := f.importAliases ++ [(path, al)] }

/-- Generator for go types, request handlers and simple validators, embedded
from the source: goSource emission buffer, service name and the two
per-run deduplication sets. -/
structure Generator where
  goSource : EmissionFile
  serviceName : String
  generatedTypes : List String
  generatedArrayTypes : List String
  deriving Repr

def appendDecl (g : Generator) (d : Decl) : Generator :=
  { g with goSource := { g.goSource with decls := g.goSource.decls ++ [d] } }

/-- Modelled from the spec: primitive kinds map to the closest native scalar
type; an unknown primitive kind is a generation error, not a silent skip. -/
def mapPrim (kind : String) : Except Err String :=
  if kind = "string" then .ok "string"
  else if kind = "integer" then .ok "int64"
  else if kind = "boolean" then .ok "bool"
  else if kind = "number" then .ok "float64"
  else if kind = "date" then .ok "time.Time"
  else .error (.unsupportedPrimitive kind)

/-- Result of one resolver step: the rendered type expression, the updated
generator, and monotonicity of the visited-name set (needed for termination). -/
structure ROut (g : Generator) (α : Type) where
  val : α
  out : Generator
  mono : g.generatedTypes ⊆ out.generatedTypes

/-- Modelled from the spec: after resolving the element of an array node, an
array whose element is a named object type gets one wrapper type declaration,
deduplicated by the element-type name in its own set. -/
def maybeArrayWrapper (elem : SchemaNode) (g : Generator) : Generator :=
  match elem with
  | .ref ename =>
    if ename ∈ g.generatedArrayTypes then g
    else
      { appendDecl g (.arrayDecl ename) with
          generatedArrayTypes := ename :: g.generatedArrayTypes }
  | _ => g

theorem maybeArrayWrapper_generatedTypes (elem : SchemaNode) (g : Generator) :
    (maybeArrayWrapper elem g).generatedTypes = g.generatedTypes := by
  cases elem <;> simp only [maybeArrayWrapper, appendDecl] <;> try rfl
  split <;> rfl

mutual

/-- Modelled from the spec: the type resolver maps one SchemaNode to an output
type expression, records emitted named types and array wrappers in the two
deduplication sets, and on re-encountering an in-progress name emits a
reference to the named type instead of recursing. -/
def resolveNode (schemas : Schemas) (node : SchemaNode) (g : Generator) :
    Except Err (ROut g TypeExpr) :=
  match node with
  | .prim kind =>
    match mapPrim kind with
    | .error e => .error e
    | .ok s => .ok ⟨.scalar s, g, List.Subset.refl _⟩
  | .obj fields =>
    match resolveFields schemas fields g with
    | .error e => .error e
    | .ok r => .ok ⟨.structOf r.val, r.out, r.mono⟩
  | .arr elem =>
    match resolveNode schemas elem g with
    | .error e => .error e
    | .ok r =>
      .ok ⟨.arrayOf r.val, maybeArrayWrapper elem r.out,
        by rw [maybeArrayWrapper_generatedTypes]; exact r.mono⟩
  | .ref name =>
    if hmem : name ∈ g.generatedTypes then
      .ok ⟨.named name, g, List.Subset.refl _⟩
    else
      match hl : lookupSchema schemas name with
      | none => .ok ⟨.named name, g, List.Subset.refl _⟩
      | some node' =>
        let g1 : Generator := { g with generatedTypes := name :: g.generatedTypes }
        match resolveNode schemas node' g1 with
        | .error e => .error e
        | .ok r =>
          .ok ⟨.named name, appendDecl r.out (.typeDecl name r.val),
            fun _ h => r.mono (List.mem_cons_of_mem _ h)⟩
termination_by (unresolvedCount schemas g.generatedTypes, sizeOf node)
decreasing_by
  all_goals simp_wf
  all_goals first
    | (apply Prod.Lex.right; simp_arith)
    | (apply Prod.Lex.left
       exact unresolvedCount_cons_lt _ _ _ ⟨_, by assumption⟩ (by assumption))

/-- Modelled from the spec: resolve the field nodes of an object schema in
order, threading the generator state left to right. -/
def resolveFields (schemas : Schemas) (fields : List (String × SchemaNode)) (g : Generator) :
    Except Err (ROut g (List (String × TypeExpr))) :=
  match fields with
  | [] => .ok ⟨[], g, List.Subset.refl _⟩
  | (fname, fnode) :: rest =>
    match resolveNode schemas fnode g with
    | .error e => .error e
    | .ok r =>
      match resolveFields schemas rest r.out with
      | .error e => .error e
      | .ok r2 =>
        .ok ⟨(fname, r.val) :: r2.val, r2.out, fun _ h => r2.mono (r.mono h)⟩
termination_by (unresolvedCount schemas g.generatedTypes, sizeOf fields)
decreasing_by
  all_goals simp_wf
  all_goals first
    | (apply Prod.Lex.right; simp_arith)
    | (rcases Nat.lt_or_ge (unresolvedCount schemas r.out.generatedTypes)
        (unresolvedCount schemas g.generatedTypes) with h | h
       · exact Prod.Lex.left _ _ h
       · have hle := unresolvedCount_mono schemas g.generatedTypes r.out.generatedTypes r.mono
         have heq : unresolvedCount schemas r.out.generatedTypes
             = unresolvedCount schemas g.generatedTypes := Nat.le_antisymm hle h
         rw [heq]
         apply Prod.Lex.right
         simp_arith)

end

/-- Modelled from the spec: the JSON:API envelope shape is an object (possibly
referenced by name) carrying a top-level data member. A bare primitive or an
array body is not an envelope. -/
def isEnvelopeShape (schemas : Schemas) (node : SchemaNode) : Bool :=
  match node with
  | .obj fields => (fields.map Prod.fst).contains "data"
  | .ref name =>
    match lookupSchema schemas name with
    | some (.obj fields) => (fields.map Prod.fst).contains "data"
    | _ => false
  | _ => false

/-- Modelled from the spec: the primitive kinds the target type system can
represent (exactly the domain of mapPrim). -/
def supportedPrimKinds : List String :=
  ["string", "integer", "boolean", "number", "date"]

/-- Modelled from the spec: a conformant parameter resolves to a known scalar
or reference type. -/
def paramConformant (p : Param) : Bool :=
  match p.schema with
  | .prim kind => supportedPrimKinds.contains kind
  | .ref _ => true
  | _ => false

/-- Modelled from the spec: an operation is JSON:API-conformant when its
parameters resolve to known scalar or reference types and its body, when
present, matches the JSON:API envelope shape. -/
def operationConformant (schemas : Schemas) (op : Operation) : Bool :=
  op.params.all paramConformant &&
    (match op.body with
     | none => true
     | some b => isEnvelopeShape schemas b)

/-- Modelled from the spec: handlers are named deterministically from the
operation identifier. -/
def handlerName (op : Operation) : String :=
  op.opId

/-- Names of the handler declarations already present in a declaration list. -/
def handlerNames (ds : List Decl) : List String :=
  ds.filterMap fun d =>
    match d with
    | .handlerDecl n => some n
    | _ => none

/-- Names of the named type declarations present in a declaration list. -/
def typeDeclNames (ds : List Decl) : List String :=
  ds.filterMap fun d =>
    match d with
    | .typeDecl n _ => some n
    | _ => none

/-- Element-type names of the array wrapper declarations in a declaration list. -/
def arrayDeclNames (ds : List Decl) : List String :=
  ds.filterMap fun d =>
    match d with
    | .arrayDecl n => some n
    | _ => none

/-- Modelled from the spec: resolve the parameter schemas of one operation in
order. -/
def resolveParams (schemas : Schemas) (ps : List Param) (g : Generator) :
    Except Err Generator :=
  match ps with
  | [] => .ok g
  | p :: rest =>
    match resolveNode schemas p.schema g with
    | .error e => .error e
    | .ok r => resolveParams schemas rest r.out

/-- Modelled from the spec: resolve the schemas reachable from one operation,
parameters before bodies; a body that does not match the JSON:API envelope
shape is skipped with no type emitted and no error. -/
def resolveOperation (schemas : Schemas) (op : Operation) (g : Generator) :
    Except Err Generator :=
  match resolveParams schemas op.params g with
  | .error e => .error e
  | .ok g' =>
    match op.body with
    | none => .ok g'
    | some b =>
      if isEnvelopeShape schemas b then
        match resolveNode schemas b g' with
        | .error e => .error e
        | .ok r => .ok r.out
      else
        .ok g'

/-- Modelled from the spec: resolve all operations in document order. -/
def resolveOperations (schemas : Schemas) (ops : List Operation) (g : Generator) :
    Except Err Generator :=
  match ops with
  | [] => .ok g
  | op :: rest =>
    match resolveOperation schemas op g with
    | .error e => .error e
    | .ok g' => resolveOperations schemas rest g'

/-- Modelled from the spec: BuildTypes, the type-resolution pipeline stage,
walks the operations of the document in order (depth-first, parameters before
bodies) and emits every reachable type declaration once. -/
def BuildTypes (schema : SchemaDocument) (g : Generator) : Except Err Generator :=
  resolveOperations schema.schemas (operations schema) g

/-- Modelled from the spec: synthesize handlers for the conformant operations
in order; a non-conformant operation is skipped with no error, and two
operations resolving to the same emitted handler identifier are a fatal
naming-collision error. -/
def synthesizeHandlers (schemas : Schemas) (ops : List Operation) (g : Generator) :
    Except Err Generator :=
  match ops with
  | [] => .ok g
  | op :: rest =>
    if operationConformant schemas op then
      if handlerName op ∈ handlerNames g.goSource.decls then
        .error (.namingCollision (handlerName op))
      else
        synthesizeHandlers schemas rest (appendDecl g (.handlerDecl (handlerName op)))
    else
      synthesizeHandlers schemas rest g

/-- Modelled from the spec: BuildHandler, the handler-synthesis pipeline stage,
emits one handler declaration per conformant operation in document order. -/
def BuildHandler (schema : SchemaDocument) (g : Generator) : Except Err Generator :=
  synthesizeHandlers schema.schemas (operations schema) g

/-- Signature of one pipeline stage, embedding the source type
buildFunc, with the receiver state passed explicitly. -/
def buildFunc : Type :=
  SchemaDocument → Generator → Except Err Generator

/-- Modelled from the spec: import path of the json:api metrics collaborator
module (constant defined outside the available source). -/
def pkgJSONAPIMetrics : String :=
  "github.com/pace/bricks/maintenance/metric/jsonapi"

/-- Modelled from the spec: import path of the opentracing collaborator module
(constant defined outside the available source). -/
def pkgOpentracing : String :=
  "github.com/opentracing/opentracing-go"

/-- The generator provenance comment emitted at the top of the file. -/
def codeGeneratedComment : String :=
  "// Code generated by github.com/pace/bricks DO NOT EDIT."

/-- Embedding of the stage loop of BuildSchema: run the build functions in
order, stopping at the first error. -/
def runBuildFuncs (bfs : List buildFunc) (schema : SchemaDocument) (g : Generator) :
    Except Err Generator :=
  match bfs with
  | [] => .ok g
  | bf :: rest =>
    match bf schema g with
    | .error e => .error e
    | .ok g' => runBuildFuncs rest schema g'

/-- The fixed stage list of BuildSchema: type resolution, then handler
synthesis. -/
def buildFuncs : List buildFunc :=
  [BuildTypes, BuildHandler]

/-- Render one declaration to one line of source text. -/
def renderDecl (d : Decl) : String :=
  match d with
  | .typeDecl name _ => "type " ++ name ++ " struct"
  | .arrayDecl elemName => "type " ++ elemName ++ "List []" ++ elemName
  | .handlerDecl name => "func " ++ name ++ "Handler(w http.ResponseWriter, r *http.Request)"

/-- The serialized lines of the emission buffer, in jen order: package comments
at the top of the file, then the package clause, imports and declarations. -/
def renderLines (f : EmissionFile) : List String :=
  f.packageComments ++ ["package " ++ f.packageName]
    ++ f.importAliases.map (fun pa => "import " ++ pa.2 ++ " \"" ++ pa.1 ++ "\"")
    ++ f.decls.map renderDecl

/-- Model of the percent-hash-v serialization of the jen file: one source-text
blob joining the rendered lines. -/
def renderFile (f : EmissionFile) : String :=
  String.intercalate "\n" (renderLines f)

/-- Embedding of the per-run state reset at the top of BuildSchema: fresh
deduplication sets, a fresh emission buffer with the provenance comment and the
two fixed import aliases, and the service name. -/
def resetGenerator (g : Generator) (packagePath packageName : String) : Generator :=
  let g1 := { g with generatedTypes := [], generatedArrayTypes := [] }
  let src :=
    importAlias
      (importAlias
        (packageComment (newFilePathName packagePath packageName) codeGeneratedComment)
        pkgJSONAPIMetrics "metrics")
      pkgOpentracing "opentracing"
  let g2 := { g1 with goSource := src }
  { g2 with serviceName := packageName }

/-- Embedding of BuildSchema: reset the per-run state, run the stages in order,
and return the serialized source text, or the empty string and the first error. -/
def BuildSchema (g : Generator) (schema : SchemaDocument)
    (packagePath packageName : String) : Generator × String × Option Err :=
  let g' := resetGenerator g packagePath packageName
  match runBuildFuncs buildFuncs schema g' with
  | .error e => (g', "", some e)
  | .ok g'' => (g'', renderFile g''.goSource, none)

/-- External effects used by BuildSource: HTTP fetch (http.Get plus body read),
file read (ioutil.ReadFile), URL parsing (url.Parse, returning the string form)
and the openapi3 loader parse (loader.LoadSwaggerFromData). All are external
collaborators of the generator. -/
structure IOEnv where
  httpGet : String → Except Err String
  readFile : String → Except Err String
  urlParse : String → Except Err String
  loadSwaggerFromData : String → Except Err SchemaDocument

/-- Character-list prefix test, model of strings.HasPrefix. -/
def leadsWith : List Char → List Char → Bool
  | [], _ => true
  | _ :: _, [] => false
  | a :: as, b :: bs => a = b && leadsWith as bs

/-- Model of strings.HasPrefix s pre. -/
def strHasPre (s pre : String) : Bool :=
  leadsWith pre.data s.data

/-- Embedding of loadSwaggerFromURI: fetch the document bytes over HTTP and
parse them with the loader; each failure is returned to the caller. -/
def loadSwaggerFromURI (env : IOEnv) (url : String) : Except Err SchemaDocument :=
  match env.httpGet url with
  | .error e => .error e
  | .ok body => env.loadSwaggerFromData body

/-- Embedding of BuildSource: a source beginning with http:// or https:// is
parsed as a URL and fetched over HTTP, any other source string is read from the
filesystem; both branches parse with the same loader and feed BuildSchema with
the same package parameters, and every fetch, read or parse failure returns the
empty string and the error without reaching BuildSchema. -/
def BuildSource (env : IOEnv) (g : Generator) (source packagePath packageName : String) :
    Generator × String × Option Err :=
  if strHasPre source "http://" || strHasPre source "https://" then
    match env.urlParse source with
    | .error e => (g, "", some e)
    | .ok loc =>
      match loadSwaggerFromURI env loc with
      | .error e => (g, "", some e)
      | .ok schema => BuildSchema g schema packagePath packageName

  else
    match env.readFile source with
    | .error e => (g, "", some e)
    | .ok data =>
      match env.loadSwaggerFromData data with
      | .error e => (g, "", some e)
      | .ok schema => BuildSchema g schema packagePath packageName

/-- The header data of an emission buffer: everything except the declaration
list. Pipeline stages never modify it. -/
def headerOf (f : EmissionFile) : String × String × List String × List (String × String) :=
  (f.packagePath, f.packageName, f.packageComments, f.importAliases)

mutual

/-- All primitive kinds occurring structurally in the node are supported. -/
def nodeWellKinded : SchemaNode → Bool
  | .prim kind => decide (kind ∈ supportedPrimKinds)
  | .obj fields => fieldsWellKinded fields
  | .arr elem => nodeWellKinded elem
  | .ref _ => true

/-- All primitive kinds occurring structurally in the field nodes are supported. -/
def fieldsWellKinded : List (String × SchemaNode) → Bool
  | [] => true
  | (_, n) :: rest => nodeWellKinded n && fieldsWellKinded rest

end

/-- All primitive kinds reachable from the operation during type resolution are
supported: its parameter schemas, and its body when the body is resolved (that
is, when it matches the envelope shape). -/
def opWellKinded (schemas : Schemas) (op : Operation) : Bool :=
  op.params.all (fun p => nodeWellKinded p.schema) &&
    (match op.body with
     | none => true
     | some b => !(isEnvelopeShape schemas b) || nodeWellKinded b)

/-- All primitive kinds processed during type resolution of the document are
supported. -/
def docWellKinded (d : SchemaDocument) : Bool :=
  d.schemas.all (fun p => nodeWellKinded p.2) && (operations d).all (opWellKinded d.schemas)

/-- A concrete generator value to start runs from. -/
def genZero : Generator := ⟨newFilePathName "" "", "", [], []⟩

/-- A document whose single operation has a parameter of an unsupported
primitive kind, so the type-resolution stage fails. -/
def badPrimDoc : SchemaDocument :=
  ⟨[], [⟨"/a", [⟨"op1", "get", [⟨"q", "query", true, .prim "uuid"⟩], none⟩]⟩]⟩

/-- A document with three conformant operations a, b, c in document order. -/
def threeOpsDoc : SchemaDocument :=
  ⟨[], [⟨"/a", [⟨"a", "get", [], none⟩, ⟨"b", "post", [], none⟩]⟩,
        ⟨"/c", [⟨"c", "get", [], none⟩]⟩]⟩

/-- The generator state after a successful run on threeOpsDoc. -/
def threeOpsFinal : Generator :=
  ⟨⟨"p", "svc", [codeGeneratedComment],
    [(pkgJSONAPIMetrics, "metrics"), (pkgOpentracing, "opentracing")],
    [.handlerDecl "a", .handlerDecl "b", .handlerDecl "c"]⟩, "svc", [], []⟩

/-- A document in which three distinct operations reference the same
array-of-Foo type. -/
def arrFooDoc : SchemaDocument :=
  ⟨[("Foo", .obj [("data", .prim "string")])],
   [⟨"/a", [⟨"a", "get", [⟨"q", "query", true, .arr (.ref "Foo")⟩], none⟩,
            ⟨"b", "post", [⟨"q", "query", true, .arr (.ref "Foo")⟩], none⟩]⟩,
    ⟨"/c", [⟨"c", "get", [⟨"q", "query", true, .arr (.ref "Foo")⟩], none⟩]⟩]⟩

/-- The generator state after a successful run on arrFooDoc: exactly one Foo
type and exactly one array-of-Foo wrapper. -/
def arrFooFinal : Generator :=
  ⟨⟨"p", "svc", [codeGeneratedComment],
    [(pkgJSONAPIMetrics, "metrics"), (pkgOpentracing, "opentracing")],
    [.typeDecl "Foo" (.structOf [("data", .scalar "string")]), .arrayDecl "Foo"]⟩,
   "svc", ["Foo"], ["Foo"]⟩

/-- A cyclic document (A references B, B references A) in which B also carries
an unsupported primitive kind. -/
def cycBadDoc : SchemaDocument :=
  ⟨[("A", .obj [("b", .ref "B")]), ("B", .obj [("a", .ref "A"), ("x", .prim "uuid")])],
   [⟨"/a", [⟨"getA", "get", [⟨"id", "path", true, .ref "A"⟩], none⟩]⟩]⟩

/-- A cyclic document A to B to A with supported primitive kinds only. -/
def cycDoc : SchemaDocument :=
  ⟨[("A", .obj [("b", .ref "B")]), ("B", .obj [("a", .ref "A")])],
   [⟨"/a", [⟨"getA", "get", [⟨"id", "path", true, .ref "A"⟩], none⟩]⟩]⟩

/-- The generator state after a successful run on cycDoc: one type per name. -/
def cycFinal : Generator :=
  ⟨⟨"p", "svc", [codeGeneratedComment],
    [(pkgJSONAPIMetrics, "metrics"), (pkgOpentracing, "opentracing")],
    [.typeDecl "B" (.structOf [("a", .named "A")]),
     .typeDecl "A" (.structOf [("b", .named "B")]),
     .handlerDecl "getA"]⟩,
   "svc", ["B", "A"], []⟩

/-- A document with two conformant operations both identified getItem. -/
def dupDoc : SchemaDocument :=
  ⟨[], [⟨"/a", [⟨"getItem", "get", [], none⟩]⟩, ⟨"/b", [⟨"getItem", "get", [], none⟩]⟩]⟩

/-- A bare-primitive-body operation next to a conformant operation. -/
def primBodyOp : Operation := ⟨"h", "get", [], some (.prim "string")⟩

/-- A conformant operation used beside primBodyOp. -/
def okOp : Operation := ⟨"a", "get", [], none⟩

/-- The empty schema document. -/
def emptyDoc : SchemaDocument := ⟨[], []⟩

/-- The generator state after a successful run on the empty document. -/
def emptyFinal : Generator :=
  ⟨⟨"p", "svc", [codeGeneratedComment],
    [(pkgJSONAPIMetrics, "metrics"), (pkgOpentracing, "opentracing")], []⟩, "svc", [], []⟩

/-- A concrete external environment: one URL serving a document body, one
readable file, an identity URL parser, and a loader accepting the two byte
strings. -/
def envW : IOEnv :=
  ⟨fun u => if u = "http://x" then .ok "body" else .error (.load "http"),
   fun f => if f = "file.json" then .ok "data" else .error (.load "file"),
   fun u => .ok u,
   fun d => if d = "body" then .ok emptyDoc
     else if d = "data" then .ok emptyDoc
     else .error (.load "parse")⟩

/-- Forgets the monotonicity proof of a resolver result. -/
def eraseNodeRes {g : Generator} : Except Err (ROut g TypeExpr) → Except Err (TypeExpr × Generator)
  | .error e => .error e
  | .ok r => .ok (r.val, r.out)

/-- Forgets the monotonicity proof of a field-resolver result. -/
def eraseFieldsRes {g : Generator} :
    Except Err (ROut g (List (String × TypeExpr))) → Except Err (List (String × TypeExpr) × Generator)
  | .error e => .error e
  | .ok r => .ok (r.val, r.out)

mutual

/-- Fuel-bounded executable twin of resolveNode, used to evaluate concrete
runs by kernel reduction; sound with respect to resolveNode. -/
def resolveNodeF : Nat → Schemas → SchemaNode → Generator →
    Option (Except Err (TypeExpr × Generator))
  | 0, _, _, _ => none
  | fuel + 1, schemas, node, g =>
    match node with
    | .prim kind =>
      match mapPrim kind with
      | .error e => some (.error e)
      | .ok s => some (.ok (.scalar s, g))
    | .obj fields =>
      match resolveFieldsF fuel schemas fields g with
      | none => none
      | some (.error e) => some (.error e)
      | some (.ok (vals, g')) => some (.ok (.structOf vals, g'))
    | .arr elem =>
      match resolveNodeF fuel schemas elem g with
      | none => none
      | some (.error e) => some (.error e)
      | some (.ok (v, g')) => some (.ok (.arrayOf v, maybeArrayWrapper elem g'))
    | .ref name =>
      if name ∈ g.generatedTypes then some (.ok (.named name, g))
      else
        match lookupSchema schemas name with
        | none => some (.ok (.named name, g))
        | some node' =>
          match resolveNodeF fuel schemas node'
              { g with generatedTypes := name :: g.generatedTypes } with
          | none => none
          | some (.error e) => some (.error e)
          | some (.ok (v, g')) => some (.ok (.named name, appendDecl g' (.typeDecl name v)))

/-- Fuel-bounded executable twin of resolveFields. -/
def resolveFieldsF : Nat → Schemas → List (String × SchemaNode) → Generator →
    Option (Except Err (List (String × TypeExpr) × Generator))
  | 0, _, _, _ => none
  | fuel + 1, schemas, fields, g =>
    match fields with
    | [] => some (.ok ([], g))
    | (fname, fnode) :: rest =>
      match resolveNodeF fuel schemas fnode g with
      | none => none
      | some (.error e) => some (.error e)
      | some (.ok (v, g1)) =>
        match resolveFieldsF fuel schemas rest g1 with
        | none => none
        | some (.error e) => some (.error e)
        | some (.ok (vals, g2)) => some (.ok ((fname, v) :: vals, g2))

end

/-- Fuel-bounded executable twin of resolveParams. -/
def resolveParamsF (fuel : Nat) (schemas : Schemas) :
    List Param → Generator → Option (Except Err Generator)
  | [], g => some (.ok g)
  | p :: rest, g =>
    match resolveNodeF fuel schemas p.schema g with
    | none => none
    | some (.error e) => some (.error e)
    | some (.ok (_, g1)) => resolveParamsF fuel schemas rest g1

/-- Fuel-bounded executable twin of resolveOperation. -/
def resolveOperationF (fuel : Nat) (schemas : Schemas) (op : Operation) (g : Generator) :
    Option (Except Err Generator) :=
  match resolveParamsF fuel schemas op.params g with
  | none => none
  | some (.error e) => some (.error e)
  | some (.ok g1) =>
    match op.body with
    | none => some (.ok g1)
    | some b =>
      if isEnvelopeShape schemas b then
        match resolveNodeF fuel schemas b g1 with
        | none => none
        | some (.error e) => some (.error e)
        | some (.ok (_, g2)) => some (.ok g2)
      else
        some (.ok g1)

/-- Fuel-bounded executable twin of resolveOperations. -/
def resolveOperationsF (fuel : Nat) (schemas : Schemas) :
    List Operation → Generator → Option (Except Err Generator)
  | [], g => some (.ok g)
  | op :: rest, g =>
    match resolveOperationF fuel schemas op g with
    | none => none
    | some (.error e) => some (.error e)
    | some (.ok g1) => resolveOperationsF fuel schemas rest g1

/-- Fuel-bounded executable twin of BuildTypes. -/
def BuildTypesF (fuel : Nat) (schema : SchemaDocument) (g : Generator) :
    Option (Except Err Generator) :=
  resolveOperationsF fuel schema.schemas (operations schema) g

/-- Fuel-bounded executable twin of BuildSchema. -/
def BuildSchemaF (fuel : Nat) (g : Generator) (schema : SchemaDocument)
    (packagePath packageName : String) : Option (Generator × String × Option Err) :=
  let g0 := resetGenerator g packagePath packageName
  match BuildTypesF fuel schema g0 with
  | none => none
  | some (.error e) => some (g0, "", some e)
  | some (.ok g1) =>
    match BuildHandler schema g1 with
    | .error e => some (g0, "", some e)
    | .ok g2 => some (g2, renderFile g2.goSource, none)

theorem handlerNames_append (a b : List Decl) :
    handlerNames (a ++ b) = handlerNames a ++ handlerNames b :=
  List.filterMap_append a b _

theorem typeDeclNames_append (a b : List Decl) :
    typeDeclNames (a ++ b) = typeDeclNames a ++ typeDeclNames b :=
  List.filterMap_append a b _

theorem arrayDeclNames_append (a b : List Decl) :
    arrayDeclNames (a ++ b) = arrayDeclNames a ++ arrayDeclNames b :=
  List.filterMap_append a b _

/-- How the declaration list grows across part of a type-resolution stage:
only type and array declarations are appended, each type name is appended at
most once and exactly for the names newly entered into the deduplication set,
and likewise for array wrapper names. -/
structure DeclsExt (g g' : Generator) (new : List Decl) : Prop where
  eq : g'.goSource.decls = g.goSource.decls ++ new
  noHandlers : handlerNames new = []
  tyNodup : (typeDeclNames new).Nodup
  tyFresh : ∀ n ∈ typeDeclNames new, n ∉ g.generatedTypes ∧ n ∈ g'.generatedTypes
  tyCover : ∀ n ∈ g'.generatedTypes, n ∈ g.generatedTypes ∨ n ∈ typeDeclNames new
  arrNodup : (arrayDeclNames new).Nodup
  arrFresh : ∀ n ∈ arrayDeclNames new, n ∉ g.generatedArrayTypes ∧ n ∈ g'.generatedArrayTypes
  arrCover : ∀ n ∈ g'.generatedArrayTypes, n ∈ g.generatedArrayTypes ∨ n ∈ arrayDeclNames new

/-- Relation between the generator state before and after part of a
type-resolution stage. -/
structure StageExt (g g' : Generator) : Prop where
  tyMono : g.generatedTypes ⊆ g'.generatedTypes
  arrMono : g.generatedArrayTypes ⊆ g'.generatedArrayTypes
  header : headerOf g'.goSource = headerOf g.goSource
  svc : g'.serviceName = g.serviceName
  declsExt : ∃ new, DeclsExt g g' new

theorem StageExt.refl (g : Generator) : StageExt g g := by
  refine ⟨List.Subset.refl _, List.Subset.refl _, rfl, rfl, [], ?_⟩
  refine ⟨by simp, rfl, List.nodup_nil, ?_, ?_, List.nodup_nil, ?_, ?_⟩
  · intro n hn
    simp [typeDeclNames] at hn
  · intro n hn
    exact Or.inl hn
  · intro n hn
    simp [arrayDeclNames] at hn
  · intro n hn
    exact Or.inl hn

theorem StageExt.trans {g g' g'' : Generator}
    (h1 : StageExt g g') (h2 : StageExt g' g'') : StageExt g g'' := by
  obtain ⟨m1, a1, hd1, s1, new1, d1⟩ := h1
  obtain ⟨m2, a2, hd2, s2, new2, d2⟩ := h2
  refine ⟨m1.trans m2, a1.trans a2, hd2.trans hd1, s2.trans s1, new1 ++ new2, ?_⟩
  have hty : typeDeclNames (new1 ++ new2) = typeDeclNames new1 ++ typeDeclNames new2 :=
    typeDeclNames_append _ _
  have harr : arrayDeclNames (new1 ++ new2) = arrayDeclNames new1 ++ arrayDeclNames new2 :=
    arrayDeclNames_append _ _
  refine ⟨?_, ?_, ?_, ?_, ?_, ?_, ?_, ?_⟩
  · rw [d2.eq, d1.eq, List.append_assoc]
  · rw [handlerNames_append, d1.noHandlers, d2.noHandlers]
    rfl
  · rw [hty]
    rw [List.nodup_append]
    refine ⟨d1.tyNodup, d2.tyNodup, ?_⟩
    intro n hn1 hn2
    exact (d2.tyFresh n hn2).1 ((d1.tyFresh n hn1).2)
  · intro n hn
    rw [hty] at hn
    rcases List.mem_append.mp hn with h | h
    · exact ⟨(d1.tyFresh n h).1, m2 ((d1.tyFresh n h).2)⟩
    · exact ⟨fun hg => (d2.tyFresh n h).1 (m1 hg), (d2.tyFresh n h).2⟩
  · intro n hn
    rw [hty]
    rcases d2.tyCover n hn with h | h
    · rcases d1.tyCover n h with h' | h'
      · exact Or.inl h'
      · exact Or.inr (List.mem_append.mpr (Or.inl h'))
    · exact Or.inr (List.mem_append.mpr (Or.inr h))
  · rw [harr]
    rw [List.nodup_append]
    refine ⟨d1.arrNodup, d2.arrNodup, ?_⟩
    intro n hn1 hn2
    exact (d2.arrFresh n hn2).1 ((d1.arrFresh n hn1).2)
  · intro n hn
    rw [harr] at hn
    rcases List.mem_append.mp hn with h | h
    · exact ⟨(d1.arrFresh n h).1, a2 ((d1.arrFresh n h).2)⟩
    · exact ⟨fun hg => (d2.arrFresh n h).1 (a1 hg), (d2.arrFresh n h).2⟩
  · intro n hn
    rw [harr]
    rcases d2.arrCover n hn with h | h
    · rcases d1.arrCover n h with h' | h'
      · exact Or.inl h'
      · exact Or.inr (List.mem_append.mpr (Or.inl h'))
    · exact Or.inr (List.mem_append.mpr (Or.inr h))

theorem typeDeclNames_arrayDecl (ename : String) :
    typeDeclNames [Decl.arrayDecl ename] = [] := rfl

theorem arrayDeclNames_arrayDecl (ename : String) :
    arrayDeclNames [Decl.arrayDecl ename] = [ename] := rfl

theorem handlerNames_arrayDecl (ename : String) :
    handlerNames [Decl.arrayDecl ename] = [] := rfl

theorem typeDeclNames_typeDecl (n : String) (v : TypeExpr) :
    typeDeclNames [Decl.typeDecl n v] = [n] := rfl

theorem arrayDeclNames_typeDecl (n : String) (v : TypeExpr) :
    arrayDeclNames [Decl.typeDecl n v] = [] := rfl

theorem handlerNames_typeDecl (n : String) (v : TypeExpr) :
    handlerNames [Decl.typeDecl n v] = [] := rfl

/-- Appending a fresh array wrapper declaration and marking its element name
preserves the stage-extension relation. -/
theorem StageExt.appendArrayStep {g g' : Generator} (h : StageExt g g') (ename : String)
    (hnot : ename ∉ g'.generatedArrayTypes) :
    StageExt g { appendDecl g' (.arrayDecl ename) with
        generatedArrayTypes := ename :: g'.generatedArrayTypes } := by
  obtain ⟨m, a, hd, s, new, d⟩ := h
  refine ⟨m, fun x hx => List.mem_cons_of_mem _ (a hx), hd, s,
    new ++ [.arrayDecl ename], ?_, ?_, ?_, ?_, ?_, ?_, ?_, ?_⟩
  · show g'.goSource.decls ++ [Decl.arrayDecl ename]
      = g.goSource.decls ++ (new ++ [Decl.arrayDecl ename])
    rw [d.eq, List.append_assoc]
  · rw [handlerNames_append, d.noHandlers, handlerNames_arrayDecl]
    rfl
  · rw [typeDeclNames_append, typeDeclNames_arrayDecl, List.append_nil]
    exact d.tyNodup
  · intro n hn
    rw [typeDeclNames_append, typeDeclNames_arrayDecl, List.append_nil] at hn
    exact d.tyFresh n hn
  · intro n hn
    rw [typeDeclNames_append, typeDeclNames_arrayDecl, List.append_nil]
    exact d.tyCover n hn
  · rw [arrayDeclNames_append, arrayDeclNames_arrayDecl, List.nodup_append]
    refine ⟨d.arrNodup, List.nodup_singleton _, ?_⟩
    intro x hx hx'
    rw [List.mem_singleton] at hx'
    exact hnot (hx' ▸ (d.arrFresh x hx).2)
  · intro n hn
    rw [arrayDeclNames_append, arrayDeclNames_arrayDecl] at hn
    rcases List.mem_append.mp hn with hn | hn
    · exact ⟨(d.arrFresh n hn).1, List.mem_cons_of_mem _ (d.arrFresh n hn).2⟩
    · rw [List.mem_singleton] at hn
      subst hn
      exact ⟨fun hg => hnot (a hg), List.mem_cons_self _ _⟩
  · intro n hn
    rw [arrayDeclNames_append, arrayDeclNames_arrayDecl]
    rcases List.mem_cons.mp hn with hn | hn
    · subst hn
      exact Or.inr (List.mem_append.mpr (Or.inr (List.mem_singleton.mpr rfl)))
    · rcases d.arrCover n hn with h' | h'
      · exact Or.inl h'
      · exact Or.inr (List.mem_append.mpr (Or.inl h'))

/-- Resolving the target of a fresh named reference and then appending its type
declaration extends the pre-marking state. -/
theorem StageExt.refStep {g gOut : Generator} {name : String} (v : TypeExpr)
    (h1 : StageExt { g with generatedTypes := name :: g.generatedTypes } gOut)
    (hnot : name ∉ g.generatedTypes) :
    StageExt g (appendDecl gOut (.typeDecl name v)) := by
  obtain ⟨m, a, hd, s, new, d⟩ := h1
  have hname : name ∈ gOut.generatedTypes := m (List.mem_cons_self _ _)
  refine ⟨fun x hx => m (List.mem_cons_of_mem _ hx), a, hd, s,
    new ++ [.typeDecl name v], ?_, ?_, ?_, ?_, ?_, ?_, ?_, ?_⟩
  · show gOut.goSource.decls ++ [Decl.typeDecl name v]
      = g.goSource.decls ++ (new ++ [Decl.typeDecl name v])
    rw [d.eq, List.append_assoc]
  · rw [handlerNames_append, d.noHandlers, handlerNames_typeDecl]
    rfl
  · rw [typeDeclNames_append, typeDeclNames_typeDecl, List.nodup_append]
    refine ⟨d.tyNodup, List.nodup_singleton _, ?_⟩
    intro x hx hx'
    rw [List.mem_singleton] at hx'
    exact (d.tyFresh x hx).1 (hx' ▸ List.mem_cons_self _ _)
  · intro n hn
    rw [typeDeclNames_append, typeDeclNames_typeDecl] at hn
    rcases List.mem_append.mp hn with hn | hn
    · refine ⟨fun hg => (d.tyFresh n hn).1 (List.mem_cons_of_mem _ hg), (d.tyFresh n hn).2⟩
    · rw [List.mem_singleton] at hn
      subst hn
      exact ⟨hnot, hname⟩
  · intro n hn
    rw [typeDeclNames_append, typeDeclNames_typeDecl]
    rcases d.tyCover n hn with h' | h'
    · rcases List.mem_cons.mp h' with h'' | h''
      · subst h''
        exact Or.inr (List.mem_append.mpr (Or.inr (List.mem_singleton.mpr rfl)))
      · exact Or.inl h''
    · exact Or.inr (List.mem_append.mpr (Or.inl h'))
  · rw [arrayDeclNames_append, arrayDeclNames_typeDecl, List.append_nil]
    exact d.arrNodup
  · intro n hn
    rw [arrayDeclNames_append, arrayDeclNames_typeDecl, List.append_nil] at hn
    exact d.arrFresh n hn
  · intro n hn
    rw [arrayDeclNames_append, arrayDeclNames_typeDecl, List.append_nil]
    exact d.arrCover n hn

/-- The optional array wrapper emission preserves the stage-extension relation. -/
theorem StageExt.wrapperStep {g g' : Generator} (h : StageExt g g') (elem : SchemaNode) :
    StageExt g (maybeArrayWrapper elem g') := by
  cases elem with
  | ref ename =>
    simp only [maybeArrayWrapper]
    split
    · exact h
    · exact h.appendArrayStep ename (by assumption)
  | prim kind => exact h
  | obj fields => exact h
  | arr e => exact h

/-- Master invariant of the type resolver: every successful resolution only
extends the state according to StageExt. -/
theorem resolveNode_stageExt (schemas : Schemas) (node : SchemaNode) (g : Generator) :
    ∀ (r : ROut g TypeExpr), resolveNode schemas node g = .ok r → StageExt g r.out := by
  refine resolveNode.induct schemas
    (fun node g => ∀ (r : ROut g TypeExpr),
      resolveNode schemas node g = .ok r → StageExt g r.out)
    (fun fields g => ∀ (r : ROut g (List (String × TypeExpr))),
      resolveFields schemas fields g = .ok r → StageExt g r.out)
    ?_ ?_ ?_ ?_ ?_ ?_ ?_ ?_ ?_ ?_ ?_ ?_ ?_ ?_ node g
  · intro g kind e hkind r hr
    rw [resolveNode.eq_def] at hr
    simp only [hkind] at hr
    exact Except.noConfusion hr
  · intro g kind s hkind r hr
    rw [resolveNode.eq_def] at hr
    simp only [hkind, Except.ok.injEq] at hr
    subst hr
    exact StageExt.refl g
  · intro g fields e herr ih r hr
    rw [resolveNode.eq_def] at hr
    simp only [herr] at hr
    exact Except.noConfusion hr
  · intro g fields rf hok ih r hr
    rw [resolveNode.eq_def] at hr
    simp only [hok, Except.ok.injEq] at hr
    subst hr
    exact ih rf hok
  · intro g elem e herr ih r hr
    rw [resolveNode.eq_def] at hr
    simp only [herr] at hr
    exact Except.noConfusion hr
  · intro g elem re hok ih r hr
    rw [resolveNode.eq_def] at hr
    simp only [hok, Except.ok.injEq] at hr
    subst hr
    exact (ih re hok).wrapperStep elem
  · intro g name hmem r hr
    rw [resolveNode.eq_def] at hr
    simp only [dif_pos hmem, Except.ok.injEq] at hr
    subst hr
    exact StageExt.refl g
  · intro g name hmem hl r hr
    rw [resolveNode.eq_def] at hr
    simp only [dif_neg hmem] at hr
    split at hr
    · simp only [Except.ok.injEq] at hr
      subst hr
      exact StageExt.refl g
    · rename_i node' heq
      rw [hl] at heq
      exact Option.noConfusion heq
  · intro g name hmem node' hl g1 e herr ih r hr
    rw [resolveNode.eq_def] at hr
    simp only [dif_neg hmem] at hr
    split at hr
    · rename_i heq
      rw [hl] at heq
      exact Option.noConfusion heq
    · rename_i node2 heq
      rw [hl] at heq
      injection heq with heq
      subst heq
      simp only [herr] at hr
      exact Except.noConfusion hr
  · intro g name hmem node' hl g1 re hok ih r hr
    rw [resolveNode.eq_def] at hr
    simp only [dif_neg hmem] at hr
    split at hr
    · rename_i heq
      rw [hl] at heq
      exact Option.noConfusion heq
    · rename_i node2 heq
      rw [hl] at heq
      injection heq with heq
      subst heq
      simp only [hok, Except.ok.injEq] at hr
      subst hr
      exact StageExt.refStep re.val (ih re hok) hmem
  · intro g r hr
    rw [resolveFields.eq_def] at hr
    simp only [Except.ok.injEq] at hr
    subst hr
    exact StageExt.refl g
  · intro g fname fnode rest e herr ih r hr
    rw [resolveFields.eq_def] at hr
    simp only [herr] at hr
    exact Except.noConfusion hr
  · intro g fname fnode rest re hok e herr ih1 ih2 r hr
    rw [resolveFields.eq_def] at hr
    simp only [hok, herr] at hr
    exact Except.noConfusion hr
  · intro g fname fnode rest re hok r2 hok2 ih1 ih2 r hr
    rw [resolveFields.eq_def] at hr
    simp only [hok, hok2, Except.ok.injEq] at hr
    subst hr
    exact (ih1 re hok).trans (ih2 r2 hok2)

theorem resolveParams_stageExt (schemas : Schemas) (ps : List Param) :
    ∀ (g g' : Generator), resolveParams schemas ps g = .ok g' → StageExt g g' := by
  induction ps with
  | nil =>
    intro g g' h
    simp only [resolveParams, Except.ok.injEq] at h
    subst h
    exact StageExt.refl g
  | cons p rest ih =>
    intro g g' h
    simp only [resolveParams] at h
    cases hres : resolveNode schemas p.schema g with
    | error e => rw [hres] at h; exact Except.noConfusion h
    | ok r =>
      rw [hres] at h
      exact (resolveNode_stageExt schemas p.schema g r hres).trans (ih r.out g' h)

theorem resolveOperation_stageExt (schemas : Schemas) (op : Operation)
    (g g' : Generator) (h : resolveOperation schemas op g = .ok g') : StageExt g g' := by
  simp only [resolveOperation] at h
  cases hps : resolveParams schemas op.params g with
  | error e => rw [hps] at h; exact Except.noConfusion h
  | ok gp =>
    rw [hps] at h
    dsimp only at h
    have h1 := resolveParams_stageExt schemas op.params g gp hps
    cases hb : op.body with
    | none =>
      rw [hb] at h
      dsimp only at h
      simp only [Except.ok.injEq] at h
      subst h
      exact h1
    | some b =>
      rw [hb] at h
      dsimp only at h
      by_cases henv : isEnvelopeShape schemas b = true
      · rw [if_pos henv] at h
        cases hres : resolveNode schemas b gp with
        | error e => rw [hres] at h; exact Except.noConfusion h
        | ok r =>
          rw [hres] at h
          simp only [Except.ok.injEq] at h
          subst h
          exact h1.trans (resolveNode_stageExt schemas b gp r hres)
      · rw [if_neg henv] at h
        simp only [Except.ok.injEq] at h
        subst h
        exact h1

theorem resolveOperations_stageExt (schemas : Schemas) (ops : List Operation) :
    ∀ (g g' : Generator), resolveOperations schemas ops g = .ok g' → StageExt g g' := by
  induction ops with
  | nil =>
    intro g g' h
    simp only [resolveOperations, Except.ok.injEq] at h
    subst h
    exact StageExt.refl g
  | cons op rest ih =>
    intro g g' h
    simp only [resolveOperations] at h
    cases hres : resolveOperation schemas op g with
    | error e => rw [hres] at h; exact Except.noConfusion h
    | ok g1 =>
      rw [hres] at h
      exact (resolveOperation_stageExt schemas op g g1 hres).trans (ih g1 g' h)

/-- The type-resolution stage only extends the generator state according to
StageExt: appended declarations are types and array wrappers, each emitted at
most once per name. -/
theorem BuildTypes_stageExt (schema : SchemaDocument) (g g' : Generator)
    (h : BuildTypes schema g = .ok g') : StageExt g g' :=
  resolveOperations_stageExt schema.schemas (operations schema) g g' h

theorem handlerNames_handlerDecl (n : String) :
    handlerNames [Decl.handlerDecl n] = [n] := rfl

theorem handlerNames_map_handlerDecl (l : List Operation) :
    handlerNames (l.map (fun op => Decl.handlerDecl (handlerName op))) = l.map handlerName := by
  induction l with
  | nil => rfl
  | cons a t ih =>
    simp only [List.map_cons, handlerNames, List.filterMap_cons] at *
    rw [ih]

/-- Successful handler synthesis appends exactly one handler declaration per
conformant operation, in document order, and touches nothing else. -/
theorem synthesizeHandlers_ok (schemas : Schemas) (ops : List Operation) :
    ∀ (g g' : Generator), synthesizeHandlers schemas ops g = .ok g' →
      g'.goSource.decls = g.goSource.decls
          ++ (ops.filter (operationConformant schemas)).map
              (fun op => Decl.handlerDecl (handlerName op))
        ∧ g'.generatedTypes = g.generatedTypes
        ∧ g'.generatedArrayTypes = g.generatedArrayTypes
        ∧ headerOf g'.goSource = headerOf g.goSource
        ∧ g'.serviceName = g.serviceName := by
  induction ops with
  | nil =>
    intro g g' h
    simp only [synthesizeHandlers, Except.ok.injEq] at h
    subst h
    simp
  | cons op rest ih =>
    intro g g' h
    simp only [synthesizeHandlers] at h
    by_cases hconf : operationConformant schemas op = true
    · rw [if_pos hconf] at h
      by_cases hmem : handlerName op ∈ handlerNames g.goSource.decls
      · rw [if_pos hmem] at h
        exact Except.noConfusion h
      · rw [if_neg hmem] at h
        obtain ⟨hdecls, hty, harr, hhd, hsvc⟩ := ih (appendDecl g (.handlerDecl (handlerName op))) g' h
        refine ⟨?_, hty, harr, hhd, hsvc⟩
        rw [hdecls]
        rw [List.filter_cons, if_pos hconf, List.map_cons]
        simp [appendDecl, List.append_assoc]
    · rw [if_neg hconf] at h
      obtain ⟨hdecls, hty, harr, hhd, hsvc⟩ := ih g g' h
      refine ⟨?_, hty, harr, hhd, hsvc⟩
      rw [hdecls]
      rw [Bool.not_eq_true] at hconf
      simp [List.filter_cons, hconf]

/-- Two conformant operations resolving to the same emitted handler identifier
make handler synthesis fail with a naming-collision error. -/
theorem synthesizeHandlers_collision (schemas : Schemas) (ops : List Operation) :
    ∀ (g : Generator), (handlerNames g.goSource.decls).Nodup →
      ¬ (handlerNames g.goSource.decls
          ++ (ops.filter (operationConformant schemas)).map handlerName).Nodup →
      ∃ n, synthesizeHandlers schemas ops g = .error (.namingCollision n) := by
  induction ops with
  | nil =>
    intro g hnd hdup
    simp only [List.filter_nil, List.map_nil, List.append_nil] at hdup
    exact absurd hnd hdup
  | cons op rest ih =>
    intro g hnd hdup
    by_cases hconf : operationConformant schemas op = true
    · by_cases hmem : handlerName op ∈ handlerNames g.goSource.decls
      · refine ⟨handlerName op, ?_⟩
        simp only [synthesizeHandlers, if_pos hconf, if_pos hmem]
      · have hgd : (appendDecl g (Decl.handlerDecl (handlerName op))).goSource.decls
            = g.goSource.decls ++ [Decl.handlerDecl (handlerName op)] := rfl
        have hnd2 : (handlerNames
            ((appendDecl g (Decl.handlerDecl (handlerName op))).goSource.decls)).Nodup := by
          rw [hgd, handlerNames_append, handlerNames_handlerDecl, List.nodup_append]
          refine ⟨hnd, List.nodup_singleton _, ?_⟩
          intro x hx hx'
          rw [List.mem_singleton] at hx'
          exact hmem (hx' ▸ hx)
        have hdup2 : ¬ (handlerNames
            ((appendDecl g (Decl.handlerDecl (handlerName op))).goSource.decls)
            ++ (rest.filter (operationConformant schemas)).map handlerName).Nodup := by
          rw [hgd, handlerNames_append, handlerNames_handlerDecl]
          intro hcontra
          apply hdup
          rw [List.filter_cons, if_pos hconf, List.map_cons]
          rw [List.append_assoc, List.singleton_append] at hcontra
          exact hcontra
        obtain ⟨n, hn⟩ := ih (appendDecl g (.handlerDecl (handlerName op))) hnd2 hdup2
        refine ⟨n, ?_⟩
        simp only [synthesizeHandlers, if_pos hconf, if_neg hmem]
        exact hn
    · obtain ⟨n, hn⟩ := ih g hnd
        (by
          intro hcontra
          apply hdup
          rw [List.filter_cons]
          rw [Bool.not_eq_true] at hconf
          rw [hconf]
          exact hcontra)
      refine ⟨n, ?_⟩
      rw [Bool.not_eq_true] at hconf
      simp only [synthesizeHandlers, hconf, if_false, Bool.false_eq_true]
      exact hn

/-- A non-conformant operation is skipped by handler synthesis: the run behaves
exactly as if the operation were absent, with no error and no emitted handler. -/
theorem synthesizeHandlers_skip (schemas : Schemas) (op : Operation)
    (hnc : operationConformant schemas op = false) (ops1 ops2 : List Operation) :
    ∀ g, synthesizeHandlers schemas (ops1 ++ op :: ops2) g
      = synthesizeHandlers schemas (ops1 ++ ops2) g := by
  induction ops1 with
  | nil =>
    intro g
    simp [synthesizeHandlers, hnc]
  | cons a t ih =>
    intro g
    simp only [List.cons_append, synthesizeHandlers]
    by_cases hconf : operationConformant schemas a = true
    · rw [if_pos hconf, if_pos hconf]
      by_cases hmem : handlerName a ∈ handlerNames g.goSource.decls
      · rw [if_pos hmem, if_pos hmem]
      · rw [if_neg hmem, if_neg hmem]
        exact ih _
    · rw [if_neg hconf, if_neg hconf]
      exact ih _

/-- When no two conformant operations share a handler identifier, handler
synthesis succeeds. -/
theorem synthesizeHandlers_ok_exists (schemas : Schemas) (ops : List Operation) :
    ∀ g, (handlerNames g.goSource.decls
        ++ (ops.filter (operationConformant schemas)).map handlerName).Nodup →
      ∃ g', synthesizeHandlers schemas ops g = .ok g' := by
  induction ops with
  | nil =>
    intro g _
    exact ⟨g, rfl⟩
  | cons op rest ih =>
    intro g hnd
    by_cases hconf : operationConformant schemas op = true
    · rw [List.filter_cons, if_pos hconf, List.map_cons] at hnd
      have hmem : handlerName op ∉ handlerNames g.goSource.decls := by
        rw [List.nodup_append] at hnd
        intro hin
        exact hnd.2.2 hin (List.mem_cons_self _ _)
      have hnd2 : (handlerNames
          ((appendDecl g (Decl.handlerDecl (handlerName op))).goSource.decls)
          ++ (rest.filter (operationConformant schemas)).map handlerName).Nodup := by
        have hgd : (appendDecl g (Decl.handlerDecl (handlerName op))).goSource.decls
            = g.goSource.decls ++ [Decl.handlerDecl (handlerName op)] := rfl
        rw [hgd, handlerNames_append, handlerNames_handlerDecl,
          List.append_assoc, List.singleton_append]
        exact hnd
      obtain ⟨g', hg'⟩ := ih (appendDecl g (.handlerDecl (handlerName op))) hnd2
      refine ⟨g', ?_⟩
      simp only [synthesizeHandlers, if_pos hconf, if_neg hmem]
      exact hg'
    · rw [List.filter_cons] at hnd
      rw [Bool.not_eq_true] at hconf
      rw [hconf] at hnd
      simp only [Bool.false_eq_true, if_false] at hnd
      obtain ⟨g', hg'⟩ := ih g hnd
      refine ⟨g', ?_⟩
      simp only [synthesizeHandlers, hconf, Bool.false_eq_true, if_false]
      exact hg'

theorem mapPrim_ok_of_supported (kind : String) (h : kind ∈ supportedPrimKinds) :
    ∃ s, mapPrim kind = .ok s := by
  simp only [supportedPrimKinds, List.mem_cons, List.mem_singleton] at h
  rcases h with h | h | h | h | (h | h) <;> first
    | (subst h; exact ⟨_, rfl⟩)
    | exact absurd h (by simp)

/-- Type resolution succeeds on any node whose primitive kinds are supported,
in a document whose schema definitions all have supported primitive kinds:
in particular it terminates and succeeds on cyclic reference graphs. -/
theorem resolveNode_ok (schemas : Schemas)
    (hs : ∀ p ∈ schemas, nodeWellKinded p.2 = true) (node : SchemaNode) (g : Generator) :
    nodeWellKinded node = true → ∃ r, resolveNode schemas node g = .ok r := by
  refine resolveNode.induct schemas
    (fun node g => nodeWellKinded node = true → ∃ r, resolveNode schemas node g = .ok r)
    (fun fields g => fieldsWellKinded fields = true
      → ∃ r, resolveFields schemas fields g = .ok r)
    ?_ ?_ ?_ ?_ ?_ ?_ ?_ ?_ ?_ ?_ ?_ ?_ ?_ ?_ node g
  · intro g kind e hkind hwk
    simp only [nodeWellKinded, decide_eq_true_eq] at hwk
    obtain ⟨s, h2⟩ := mapPrim_ok_of_supported kind hwk
    rw [hkind] at h2
    exact Except.noConfusion h2
  · intro g kind s hkind hwk
    refine ⟨⟨.scalar s, g, List.Subset.refl _⟩, ?_⟩
    rw [resolveNode.eq_def]
    simp only [hkind]
  · intro g fields e herr ih hwk
    simp only [nodeWellKinded] at hwk
    obtain ⟨r, hr⟩ := ih hwk
    rw [herr] at hr
    exact Except.noConfusion hr
  · intro g fields rf hok ih hwk
    refine ⟨⟨.structOf rf.val, rf.out, rf.mono⟩, ?_⟩
    rw [resolveNode.eq_def]
    simp only [hok]
  · intro g elem e herr ih hwk
    simp only [nodeWellKinded] at hwk
    obtain ⟨r, hr⟩ := ih hwk
    rw [herr] at hr
    exact Except.noConfusion hr
  · intro g elem re hok ih hwk
    refine ⟨⟨.arrayOf re.val, maybeArrayWrapper elem re.out,
      by rw [maybeArrayWrapper_generatedTypes]; exact re.mono⟩, ?_⟩
    rw [resolveNode.eq_def]
    simp only [hok]
  · intro g name hmem hwk
    refine ⟨⟨.named name, g, List.Subset.refl _⟩, ?_⟩
    rw [resolveNode.eq_def]
    simp only [dif_pos hmem]
  · intro g name hmem hl hwk
    refine ⟨⟨.named name, g, List.Subset.refl _⟩, ?_⟩
    rw [resolveNode.eq_def]
    simp only [dif_neg hmem]
    split
    · rfl
    · rename_i node' heq
      rw [hl] at heq
      exact Option.noConfusion heq
  · intro g name hmem node' hl g1 e herr ih hwk
    have hwk' : nodeWellKinded node' = true := hs (name, node') (lookupSchema_mem schemas name node' hl)
    obtain ⟨r, hr⟩ := ih hwk'
    rw [herr] at hr
    exact Except.noConfusion hr
  · intro g name hmem node' hl g1 re hok ih hwk
    refine ⟨⟨.named name, appendDecl re.out (.typeDecl name re.val),
      fun _ h => re.mono (List.mem_cons_of_mem _ h)⟩, ?_⟩
    rw [resolveNode.eq_def]
    simp only [dif_neg hmem]
    split
    · rename_i heq
      rw [hl] at heq
      exact Option.noConfusion heq
    · rename_i node2 heq
      rw [hl] at heq
      injection heq with heq
      subst heq
      simp only [hok]
  · intro g hwk
    refine ⟨⟨[], g, List.Subset.refl _⟩, ?_⟩
    rw [resolveFields.eq_def]
  · intro g fname fnode rest e herr ih hwk
    simp only [fieldsWellKinded, Bool.and_eq_true] at hwk
    obtain ⟨r, hr⟩ := ih hwk.1
    rw [herr] at hr
    exact Except.noConfusion hr
  · intro g fname fnode rest re hok e herr ih1 ih2 hwk
    simp only [fieldsWellKinded, Bool.and_eq_true] at hwk
    obtain ⟨r, hr⟩ := ih2 hwk.2
    rw [herr] at hr
    exact Except.noConfusion hr
  · intro g fname fnode rest re hok r2 hok2 ih1 ih2 hwk
    refine ⟨⟨(fname, re.val) :: r2.val, r2.out, fun _ h => r2.mono (re.mono h)⟩, ?_⟩
    rw [resolveFields.eq_def]
    simp only [hok, hok2]

theorem resolveParams_ok (schemas : Schemas)
    (hs : ∀ p ∈ schemas, nodeWellKinded p.2 = true) (ps : List Param) :
    ∀ g, (∀ p ∈ ps, nodeWellKinded p.schema = true) →
      ∃ g', resolveParams schemas ps g = .ok g' := by
  induction ps with
  | nil =>
    intro g _
    exact ⟨g, rfl⟩
  | cons p rest ih =>
    intro g hwk
    obtain ⟨r, hr⟩ := resolveNode_ok schemas hs p.schema g (hwk p (List.mem_cons_self _ _))
    obtain ⟨g', hg'⟩ := ih r.out (fun q hq => hwk q (List.mem_cons_of_mem _ hq))
    refine ⟨g', ?_⟩
    simp only [resolveParams, hr]
    exact hg'

theorem resolveOperation_ok (schemas : Schemas)
    (hs : ∀ p ∈ schemas, nodeWellKinded p.2 = true) (op : Operation) (g : Generator)
    (hwk : opWellKinded schemas op = true) :
    ∃ g', resolveOperation schemas op g = .ok g' := by
  simp only [opWellKinded, Bool.and_eq_true, List.all_eq_true] at hwk
  obtain ⟨gp, hgp⟩ := resolveParams_ok schemas hs op.params g
    (fun p hp => by simpa using hwk.1 p hp)
  cases hb : op.body with
  | none =>
    refine ⟨gp, ?_⟩
    simp only [resolveOperation, hgp, hb]
  | some b =>
    by_cases henv : isEnvelopeShape schemas b = true
    · have hbwk : nodeWellKinded b = true := by
        have := hwk.2
        rw [hb] at this
        simp only [Bool.or_eq_true, Bool.not_eq_true'] at this
        rcases this with h | h
        · rw [henv] at h
          exact Bool.noConfusion h
        · exact h
      obtain ⟨r, hr⟩ := resolveNode_ok schemas hs b gp hbwk
      refine ⟨r.out, ?_⟩
      simp only [resolveOperation, hgp, hb, if_pos henv, hr]
    · refine ⟨gp, ?_⟩
      rw [Bool.not_eq_true] at henv
      simp only [resolveOperation, hgp, hb, henv, Bool.false_eq_true, if_false]

theorem resolveOperations_ok (schemas : Schemas)
    (hs : ∀ p ∈ schemas, nodeWellKinded p.2 = true) (ops : List Operation) :
    ∀ g, (∀ op ∈ ops, opWellKinded schemas op = true) →
      ∃ g', resolveOperations schemas ops g = .ok g' := by
  induction ops with
  | nil =>
    intro g _
    exact ⟨g, rfl⟩
  | cons op rest ih =>
    intro g hwk
    obtain ⟨g1, hg1⟩ := resolveOperation_ok schemas hs op g (hwk op (List.mem_cons_self _ _))
    obtain ⟨g', hg'⟩ := ih g1 (fun q hq => hwk q (List.mem_cons_of_mem _ hq))
    refine ⟨g', ?_⟩
    simp only [resolveOperations, hg1]
    exact hg'

/-- The type-resolution stage succeeds on every document whose primitive kinds
are supported; cyclic schema documents in particular. -/
theorem BuildTypes_ok (d : SchemaDocument) (g : Generator)
    (hwk : docWellKinded d = true) :
    ∃ g', BuildTypes d g = .ok g' := by
  simp only [docWellKinded, Bool.and_eq_true, List.all_eq_true] at hwk
  exact resolveOperations_ok d.schemas (fun p hp => hwk.1 p hp) (operations d) g
    (fun op hop => hwk.2 op hop)

theorem typeDeclNames_map_handlerDecl (l : List Operation) :
    typeDeclNames (l.map (fun op => Decl.handlerDecl (handlerName op))) = [] := by
  induction l with
  | nil => rfl
  | cons a t ih => simpa [typeDeclNames, List.filterMap_cons] using ih

theorem arrayDeclNames_map_handlerDecl (l : List Operation) :
    arrayDeclNames (l.map (fun op => Decl.handlerDecl (handlerName op))) = [] := by
  induction l with
  | nil => rfl
  | cons a t ih => simpa [arrayDeclNames, List.filterMap_cons] using ih

theorem resetGenerator_indep (g g' : Generator) (p n : String) :
    resetGenerator g p n = resetGenerator g' p n := rfl

theorem resetGenerator_generatedTypes (g : Generator) (p n : String) :
    (resetGenerator g p n).generatedTypes = [] := rfl

theorem resetGenerator_generatedArrayTypes (g : Generator) (p n : String) :
    (resetGenerator g p n).generatedArrayTypes = [] := rfl

theorem resetGenerator_decls (g : Generator) (p n : String) :
    (resetGenerator g p n).goSource.decls = [] := rfl

theorem resetGenerator_goSource (g : Generator) (p n : String) :
    (resetGenerator g p n).goSource =
      ⟨p, n, [codeGeneratedComment],
        [(pkgJSONAPIMetrics, "metrics"), (pkgOpentracing, "opentracing")], []⟩ := rfl

theorem BuildSchema_eq_error {g : Generator} {s : SchemaDocument} {p n : String} {e : Err}
    (h1 : BuildTypes s (resetGenerator g p n) = .error e) :
    BuildSchema g s p n = (resetGenerator g p n, "", some e) := by
  simp only [BuildSchema, buildFuncs, runBuildFuncs, h1]

theorem BuildSchema_eq_error2 {g : Generator} {s : SchemaDocument} {p n : String}
    {g1 : Generator} {e : Err}
    (h1 : BuildTypes s (resetGenerator g p n) = .ok g1)
    (h2 : BuildHandler s g1 = .error e) :
    BuildSchema g s p n = (resetGenerator g p n, "", some e) := by
  simp only [BuildSchema, buildFuncs, runBuildFuncs, h1, h2]

theorem BuildSchema_eq_ok {g : Generator} {s : SchemaDocument} {p n : String}
    {g1 g2 : Generator}
    (h1 : BuildTypes s (resetGenerator g p n) = .ok g1)
    (h2 : BuildHandler s g1 = .ok g2) :
    BuildSchema g s p n = (g2, renderFile g2.goSource, none) := by
  simp only [BuildSchema, buildFuncs, runBuildFuncs, h1, h2]

theorem BuildSchema_ok_inv {g : Generator} {s : SchemaDocument} {p n : String}
    {g'' : Generator} {out : String}
    (h : BuildSchema g s p n = (g'', out, none)) :
    ∃ g1, BuildTypes s (resetGenerator g p n) = .ok g1
      ∧ BuildHandler s g1 = .ok g''
      ∧ out = renderFile g''.goSource := by
  simp only [BuildSchema, buildFuncs, runBuildFuncs] at h
  cases h1 : BuildTypes s (resetGenerator g p n) with
  | error e =>
    rw [h1] at h
    simp at h
  | ok g1 =>
    rw [h1] at h
    dsimp only at h
    cases h2 : BuildHandler s g1 with
    | error e =>
      rw [h2] at h
      simp at h
    | ok g2 =>
      rw [h2] at h
      simp only [Prod.mk.injEq] at h
      obtain ⟨hg, hout, -⟩ := h
      subst hg
      exact ⟨g1, rfl, h2, hout.symm⟩

/-- Soundness of the fuel-bounded twins: a defined twin result equals the
result of the corresponding pipeline function. -/
theorem resolveF_sound (fuel : Nat) (schemas : Schemas) :
    (∀ (node : SchemaNode) (g : Generator) (res : Except Err (TypeExpr × Generator)),
      resolveNodeF fuel schemas node g = some res
        → eraseNodeRes (resolveNode schemas node g) = res)
    ∧ (∀ (fields : List (String × SchemaNode)) (g : Generator)
        (res : Except Err (List (String × TypeExpr) × Generator)),
      resolveFieldsF fuel schemas fields g = some res
        → eraseFieldsRes (resolveFields schemas fields g) = res) := by
  induction fuel with
  | zero =>
    constructor
    · intro node g res h
      simp [resolveNodeF] at h
    · intro fields g res h
      simp [resolveFieldsF] at h
  | succ fuel ih =>
    obtain ⟨ihN, ihF⟩ := ih
    constructor
    · intro node g res h
      cases node with
      | prim kind =>
        rw [resolveNode.eq_def]
        cases hm : mapPrim kind with
        | error e =>
          simp only [resolveNodeF, hm] at h
          injection h with h
          rw [← h]
          simp only [hm, eraseNodeRes]
        | ok s =>
          simp only [resolveNodeF, hm] at h
          injection h with h
          rw [← h]
          simp only [hm, eraseNodeRes]
      | obj fields =>
        rw [resolveNode.eq_def]
        simp only [resolveNodeF] at h
        cases hf : resolveFieldsF fuel schemas fields g with
        | none => rw [hf] at h; exact Option.noConfusion h
        | some fres =>
          rw [hf] at h
          have hb := ihF fields g fres hf
          cases hrf : resolveFields schemas fields g with
          | error e2 =>
            rw [hrf] at hb
            simp only [eraseFieldsRes] at hb
            subst hb
            simp only at h
            injection h with h
            rw [← h]
            simp only [hrf, eraseNodeRes]
          | ok r0 =>
            rw [hrf] at hb
            simp only [eraseFieldsRes] at hb
            subst hb
            simp only at h
            injection h with h
            rw [← h]
            simp only [hrf, eraseNodeRes]
      | arr elem =>
        rw [resolveNode.eq_def]
        simp only [resolveNodeF] at h
        cases hf : resolveNodeF fuel schemas elem g with
        | none => rw [hf] at h; exact Option.noConfusion h
        | some fres =>
          rw [hf] at h
          have hb := ihN elem g fres hf
          cases hrf : resolveNode schemas elem g with
          | error e2 =>
            rw [hrf] at hb
            simp only [eraseNodeRes] at hb
            subst hb
            simp only at h
            injection h with h
            rw [← h]
            simp only [hrf, eraseNodeRes]
          | ok r0 =>
            rw [hrf] at hb
            simp only [eraseNodeRes] at hb
            subst hb
            simp only at h
            injection h with h
            rw [← h]
            simp only [hrf, eraseNodeRes]
      | ref name =>
        rw [resolveNode.eq_def]
        simp only [resolveNodeF] at h
        by_cases hmem : name ∈ g.generatedTypes
        · rw [if_pos hmem] at h
          injection h with h
          rw [← h]
          simp only [dif_pos hmem, eraseNodeRes]
        · rw [if_neg hmem] at h
          simp only [dif_neg hmem]
          cases hl : lookupSchema schemas name with
          | none =>
            rw [hl] at h
            injection h with h
          | some node' =>
            rw [hl] at h
            dsimp only at h
            split
            · rename_i heq
              exact Option.noConfusion heq
            · rename_i node2 heq
              injection heq with heq
              subst heq
              cases hf : resolveNodeF fuel schemas node'
                  { g with generatedTypes := name :: g.generatedTypes } with
              | none => rw [hf] at h; exact Option.noConfusion h
              | some fres =>
                rw [hf] at h
                have hb := ihN node' _ fres hf
                cases hrf : resolveNode schemas node'
                    { g with generatedTypes := name :: g.generatedTypes } with
                | error e2 =>
                  rw [hrf] at hb
                  simp only [eraseNodeRes] at hb
                  subst hb
                  simp only at h
                  injection h with h
                | ok r0 =>
                  rw [hrf] at hb
                  simp only [eraseNodeRes] at hb
                  subst hb
                  simp only at h
                  injection h with h
    · intro fields g res h
      cases fields with
      | nil =>
        rw [resolveFields.eq_def]
        simp only [resolveFieldsF] at h
        injection h with h
      | cons fh rest =>
        obtain ⟨fname, fnode⟩ := fh
        rw [resolveFields.eq_def]
        simp only [resolveFieldsF] at h
        cases hf : resolveNodeF fuel schemas fnode g with
        | none => rw [hf] at h; exact Option.noConfusion h
        | some fres =>
          rw [hf] at h
          have hb := ihN fnode g fres hf
          cases hrf : resolveNode schemas fnode g with
          | error e2 =>
            rw [hrf] at hb
            simp only [eraseNodeRes] at hb
            subst hb
            simp only at h
            injection h with h
            rw [← h]
            simp only [hrf, eraseFieldsRes]
          | ok r0 =>
            rw [hrf] at hb
            simp only [eraseNodeRes] at hb
            subst hb
            simp only at h
            cases hf2 : resolveFieldsF fuel schemas rest r0.out with
            | none => rw [hf2] at h; exact Option.noConfusion h
            | some fres2 =>
              rw [hf2] at h
              have hb2 := ihF rest r0.out fres2 hf2
              cases hrf2 : resolveFields schemas rest r0.out with
              | error e2 =>
                rw [hrf2] at hb2
                simp only [eraseFieldsRes] at hb2
                subst hb2
                simp only at h
                injection h with h
                rw [← h]
                simp only [hrf, hrf2, eraseFieldsRes]
              | ok r2 =>
                rw [hrf2] at hb2
                simp only [eraseFieldsRes] at hb2
                subst hb2
                simp only at h
                injection h with h
                rw [← h]
                simp only [hrf, hrf2, eraseFieldsRes]

theorem resolveParamsF_sound (fuel : Nat) (schemas : Schemas) (ps : List Param) :
    ∀ (g : Generator) (res : Except Err Generator),
      resolveParamsF fuel schemas ps g = some res → resolveParams schemas ps g = res := by
  induction ps with
  | nil =>
    intro g res h
    simp only [resolveParamsF] at h
    injection h with h
  | cons p rest ih =>
    intro g res h
    simp only [resolveParamsF] at h
    simp only [resolveParams]
    cases hf : resolveNodeF fuel schemas p.schema g with
    | none => rw [hf] at h; exact Option.noConfusion h
    | some fres =>
      rw [hf] at h
      have hb := (resolveF_sound fuel schemas).1 p.schema g fres hf
      cases hrf : resolveNode schemas p.schema g with
      | error e2 =>
        rw [hrf] at hb
        simp only [eraseNodeRes] at hb
        subst hb
        simp only at h
        injection h with h
      | ok r0 =>
        rw [hrf] at hb
        simp only [eraseNodeRes] at hb
        subst hb
        simp only at h
        exact ih r0.out res h

theorem resolveOperationF_sound (fuel : Nat) (schemas : Schemas) (op : Operation)
    (g : Generator) (res : Except Err Generator)
    (h : resolveOperationF fuel schemas op g = some res) :
    resolveOperation schemas op g = res := by
  simp only [resolveOperationF] at h
  simp only [resolveOperation]
  cases hp : resolveParamsF fuel schemas op.params g with
  | none => rw [hp] at h; exact Option.noConfusion h
  | some pres =>
    rw [hp] at h
    have hb := resolveParamsF_sound fuel schemas op.params g pres hp
    rw [hb]
    cases pres with
    | error e =>
      simp only at h
      injection h with h
    | ok g1 =>
      simp only at h
      dsimp only
      cases hbody : op.body with
      | none =>
        rw [hbody] at h
        injection h with h
      | some b =>
        rw [hbody] at h
        dsimp only at h
        dsimp only
        by_cases henv : isEnvelopeShape schemas b = true
        · rw [if_pos henv] at h
          rw [if_pos henv]
          cases hf : resolveNodeF fuel schemas b g1 with
          | none => rw [hf] at h; exact Option.noConfusion h
          | some fres =>
            rw [hf] at h
            have hb2 := (resolveF_sound fuel schemas).1 b g1 fres hf
            cases hrf : resolveNode schemas b g1 with
            | error e2 =>
              rw [hrf] at hb2
              simp only [eraseNodeRes] at hb2
              subst hb2
              simp only at h
              injection h with h
            | ok r0 =>
              rw [hrf] at hb2
              simp only [eraseNodeRes] at hb2
              subst hb2
              simp only at h
              injection h with h
        · rw [if_neg henv] at h
          rw [if_neg henv]
          injection h with h

theorem resolveOperationsF_sound (fuel : Nat) (schemas : Schemas) (ops : List Operation) :
    ∀ (g : Generator) (res : Except Err Generator),
      resolveOperationsF fuel schemas ops g = some res → resolveOperations schemas ops g = res := by
  induction ops with
  | nil =>
    intro g res h
    simp only [resolveOperationsF] at h
    injection h with h
  | cons op rest ih =>
    intro g res h
    simp only [resolveOperationsF] at h
    simp only [resolveOperations]
    cases ho : resolveOperationF fuel schemas op g with
    | none => rw [ho] at h; exact Option.noConfusion h
    | some ores =>
      rw [ho] at h
      rw [resolveOperationF_sound fuel schemas op g ores ho]
      cases ores with
      | error e =>
        simp only at h
        injection h with h
      | ok g1 =>
        simp only at h
        exact ih g1 res h

theorem BuildTypesF_sound (fuel : Nat) (schema : SchemaDocument) (g : Generator)
    (res : Except Err Generator) (h : BuildTypesF fuel schema g = some res) :
    BuildTypes schema g = res :=
  resolveOperationsF_sound fuel schema.schemas (operations schema) g res h

theorem BuildSchemaF_sound (fuel : Nat) (g : Generator) (schema : SchemaDocument)
    (p n : String) (res : Generator × String × Option Err)
    (h : BuildSchemaF fuel g schema p n = some res) :
    BuildSchema g schema p n = res := by
  simp only [BuildSchemaF] at h
  cases ht : BuildTypesF fuel schema (resetGenerator g p n) with
  | none => rw [ht] at h; exact Option.noConfusion h
  | some tres =>
    rw [ht] at h
    have hb := BuildTypesF_sound fuel schema (resetGenerator g p n) tres ht
    cases tres with
    | error e =>
      simp only at h
      injection h with h
      rw [← h]
      exact BuildSchema_eq_error hb
    | ok g1 =>
      simp only at h
      cases hh : BuildHandler schema g1 with
      | error e =>
        rw [hh] at h
        injection h with h
        rw [← h]
        exact BuildSchema_eq_error2 hb hh
      | ok g2 =>
        rw [hh] at h
        injection h with h
        rw [← h]
        exact BuildSchema_eq_ok hb hh

theorem BuildSchema_indep (g g' : Generator) (s : SchemaDocument) (p n : String) :
    BuildSchema g s p n = BuildSchema g' s p n := by
  unfold BuildSchema
  rw [resetGenerator_indep g g' p n]

theorem BuildSource_snd_indep (env : IOEnv) (g g' : Generator) (src p n : String) :
    (BuildSource env g src p n).2 = (BuildSource env g' src p n).2 := by
  unfold BuildSource
  by_cases hp : (strHasPre src "http://" || strHasPre src "https://") = true
  · rw [if_pos hp, if_pos hp]
    cases hu : env.urlParse src with
    | error e => rfl
    | ok loc =>
      dsimp only
      cases hl : loadSwaggerFromURI env loc with
      | error e => rfl
      | ok schema => exact congrArg Prod.snd (BuildSchema_indep g g' schema p n)
  · rw [if_neg hp, if_neg hp]
    cases hf : env.readFile src with
    | error e => rfl
    | ok data =>
      dsimp only
      cases hd : env.loadSwaggerFromData data with
      | error e => rfl
      | ok schema => exact congrArg Prod.snd (BuildSchema_indep g g' schema p n)

/-- C1: two invocations of BuildSchema with the same document and the same
package parameters return byte-identical source text and error, even when the
second invocation runs on the generator state left by the first, and likewise
any two invocations from arbitrary generator states; the same holds for
BuildSource on the same unchanged source locator (same external environment). -/
theorem C1_idempotent_generation :
    (∀ (g : Generator) (s : SchemaDocument) (p n : String),
      (BuildSchema ((BuildSchema g s p n).1) s p n).2 = (BuildSchema g s p n).2)
    ∧ (∀ (g g' : Generator) (s : SchemaDocument) (p n : String),
      (BuildSchema g s p n).2 = (BuildSchema g' s p n).2)
    ∧ (∀ (env : IOEnv) (src p n : String) (g : Generator),
      (BuildSource env ((BuildSource env g src p n).1) src p n).2
        = (BuildSource env g src p n).2)
    ∧ (∀ (env : IOEnv) (src p n : String) (g g' : Generator),
      (BuildSource env g src p n).2 = (BuildSource env g' src p n).2) := by
  refine ⟨?_, ?_, ?_, ?_⟩
  · intro g s p n
    exact congrArg Prod.snd (BuildSchema_indep _ g s p n)
  · intro g g' s p n
    exact congrArg Prod.snd (BuildSchema_indep g g' s p n)
  · intro env src p n g
    exact BuildSource_snd_indep env _ g src p n
  · intro env src p n g g'
    exact BuildSource_snd_indep env g g' src p n

/-- C8: every invocation of BuildSchema begins with freshly created, empty
deduplication sets and a fresh, empty emission buffer, so its whole result is
independent of any state left on the Generator value by earlier runs. -/
theorem C8_fresh_state_per_run :
    (∀ (g : Generator) (p n : String),
      (resetGenerator g p n).generatedTypes = []
        ∧ (resetGenerator g p n).generatedArrayTypes = []
        ∧ (resetGenerator g p n).goSource.decls = [])
    ∧ (∀ (g g' : Generator) (p n : String), resetGenerator g p n = resetGenerator g' p n)
    ∧ (∀ (g g' : Generator) (s : SchemaDocument) (p n : String),
      BuildSchema g s p n = BuildSchema g' s p n) := by
  refine ⟨?_, ?_, ?_⟩
  · intro g p n
    exact ⟨rfl, rfl, rfl⟩
  · intro g g' p n
    exact resetGenerator_indep g g' p n
  · intro g g' s p n
    exact BuildSchema_indep g g' s p n

/-- C2: BuildSchema runs the pipeline stages in the fixed order type
resolution then handler synthesis; a failing stage stops the loop, the later
stage is never invoked (the result does not depend on it), and BuildSchema
returns the empty string with the first error. -/
theorem C2_failfast_pipeline :
    buildFuncs = [BuildTypes, BuildHandler]
    ∧ (∀ (bf2 : buildFunc) (s : SchemaDocument) (g : Generator) (e : Err),
        BuildTypes s g = .error e → runBuildFuncs [BuildTypes, bf2] s g = .error e)
    ∧ (∀ (g : Generator) (s : SchemaDocument) (p n : String) (e : Err),
        BuildTypes s (resetGenerator g p n) = .error e →
          BuildSchema g s p n = (resetGenerator g p n, "", some e))
    ∧ (∀ (s : SchemaDocument) (g g1 : Generator) (e : Err),
        BuildTypes s g = .ok g1 → BuildHandler s g1 = .error e →
          runBuildFuncs buildFuncs s g = .error e)
    ∧ (∀ (g : Generator) (s : SchemaDocument) (p n : String) (g1 : Generator) (e : Err),
        BuildTypes s (resetGenerator g p n) = .ok g1 → BuildHandler s g1 = .error e →
          BuildSchema g s p n = (resetGenerator g p n, "", some e)) := by
  refine ⟨rfl, ?_, ?_, ?_, ?_⟩
  · intro bf2 s g e h
    simp only [runBuildFuncs, h]
  · intro g s p n e h
    exact BuildSchema_eq_error h
  · intro s g g1 e h1 h2
    simp only [buildFuncs, runBuildFuncs, h1, h2]
  · intro g s p n g1 e h1 h2
    exact BuildSchema_eq_error2 h1 h2

theorem C2_failfast_pipeline_witness :
    BuildTypes badPrimDoc (resetGenerator genZero "p" "svc")
        = .error (.unsupportedPrimitive "uuid")
    ∧ BuildSchema genZero badPrimDoc "p" "svc"
        = (resetGenerator genZero "p" "svc", "", some (.unsupportedPrimitive "uuid"))
    ∧ runBuildFuncs [BuildTypes, BuildHandler] badPrimDoc (resetGenerator genZero "p" "svc")
        = .error (.unsupportedPrimitive "uuid") := by
  have h : BuildTypes badPrimDoc (resetGenerator genZero "p" "svc")
      = .error (.unsupportedPrimitive "uuid") :=
    BuildTypesF_sound 32 badPrimDoc (resetGenerator genZero "p" "svc") _ rfl
  exact ⟨h, C2_failfast_pipeline.2.2.1 genZero badPrimDoc "p" "svc" _ h,
    C2_failfast_pipeline.2.1 BuildHandler badPrimDoc _ _ h⟩

/-- C3: in every successful generation run, all type and array declarations
precede all handler declarations in the emission buffer (and hence in the
serialized output, which renders declarations in list order); the handler
declarations are exactly the conformant operations of the document in document
order; and the type declarations are the ones produced by the type-resolution
stage in its discovery order. -/
theorem C3_ordered_output :
    ∀ (g : Generator) (s : SchemaDocument) (p n : String) (g'' : Generator) (out : String),
      BuildSchema g s p n = (g'', out, none) →
      ∃ tds, g''.goSource.decls = tds
          ++ ((operations s).filter (operationConformant s.schemas)).map
              (fun op => Decl.handlerDecl (handlerName op))
        ∧ handlerNames tds = []
        ∧ (∃ g1, BuildTypes s (resetGenerator g p n) = .ok g1 ∧ g1.goSource.decls = tds) := by
  intro g s p n g'' out h
  obtain ⟨g1, h1, h2, hout⟩ := BuildSchema_ok_inv h
  obtain ⟨hdecls, -, -, -, -⟩ := synthesizeHandlers_ok s.schemas (operations s) g1 g'' h2
  have hst := BuildTypes_stageExt s (resetGenerator g p n) g1 h1
  obtain ⟨new, d⟩ := hst.declsExt
  have hg1decls : handlerNames g1.goSource.decls = [] := by
    have heq := d.eq
    rw [resetGenerator_decls] at heq
    rw [heq, List.nil_append]
    exact d.noHandlers
  exact ⟨g1.goSource.decls, hdecls, hg1decls, g1, h1, rfl⟩

theorem C3_ordered_output_witness :
    BuildSchema genZero threeOpsDoc "p" "svc"
        = (threeOpsFinal, renderFile threeOpsFinal.goSource, none)
    ∧ (∃ tds, threeOpsFinal.goSource.decls = tds
          ++ ((operations threeOpsDoc).filter (operationConformant threeOpsDoc.schemas)).map
              (fun op => Decl.handlerDecl (handlerName op))
        ∧ handlerNames tds = []
        ∧ (∃ g1, BuildTypes threeOpsDoc (resetGenerator genZero "p" "svc") = .ok g1
            ∧ g1.goSource.decls = tds))
    ∧ handlerNames threeOpsFinal.goSource.decls = ["a", "b", "c"] := by
  have hrun : BuildSchema genZero threeOpsDoc "p" "svc"
      = (threeOpsFinal, renderFile threeOpsFinal.goSource, none) :=
    BuildSchemaF_sound 32 genZero threeOpsDoc "p" "svc" _ rfl
  exact ⟨hrun,
    C3_ordered_output genZero threeOpsDoc "p" "svc" threeOpsFinal
      (renderFile threeOpsFinal.goSource) hrun,
    by decide⟩

/-- C5: throughout one generation run, at most one type declaration is emitted
per distinct source name and at most one array wrapper per distinct
element-type name. -/
theorem C5_dedup :
    ∀ (g : Generator) (s : SchemaDocument) (p n : String) (g'' : Generator) (out : String),
      BuildSchema g s p n = (g'', out, none) →
      (typeDeclNames g''.goSource.decls).Nodup
        ∧ (arrayDeclNames g''.goSource.decls).Nodup := by
  intro g s p n g'' out h
  obtain ⟨g1, h1, h2, hout⟩ := BuildSchema_ok_inv h
  obtain ⟨hdecls, -, -, -, -⟩ := synthesizeHandlers_ok s.schemas (operations s) g1 g'' h2
  have hst := BuildTypes_stageExt s (resetGenerator g p n) g1 h1
  obtain ⟨new, d⟩ := hst.declsExt
  have hg1 : g1.goSource.decls = new := by
    have heq := d.eq
    rw [resetGenerator_decls] at heq
    rw [heq, List.nil_append]
  constructor
  · rw [hdecls, typeDeclNames_append, typeDeclNames_map_handlerDecl, List.append_nil, hg1]
    exact d.tyNodup
  · rw [hdecls, arrayDeclNames_append, arrayDeclNames_map_handlerDecl, List.append_nil, hg1]
    exact d.arrNodup

theorem C5_dedup_witness :
    BuildSchema genZero arrFooDoc "p" "svc"
        = (arrFooFinal, renderFile arrFooFinal.goSource, none)
    ∧ ((typeDeclNames arrFooFinal.goSource.decls).Nodup
        ∧ (arrayDeclNames arrFooFinal.goSource.decls).Nodup)
    ∧ typeDeclNames arrFooFinal.goSource.decls = ["Foo"]
    ∧ arrayDeclNames arrFooFinal.goSource.decls = ["Foo"] := by
  have hrun : BuildSchema genZero arrFooDoc "p" "svc"
      = (arrFooFinal, renderFile arrFooFinal.goSource, none) :=
    BuildSchemaF_sound 32 genZero arrFooDoc "p" "svc" _ rfl
  exact ⟨hrun,
    C5_dedup genZero arrFooDoc "p" "svc" arrFooFinal (renderFile arrFooFinal.goSource) hrun,
    by decide, by decide⟩

/-- C4 counterexample: a schema document containing the cycle A to B to A on
which generation nevertheless fails, because an unsupported primitive kind is
reached; so cyclic documents do not always generate successfully as stated. -/
theorem C4_cycle_counterexample :
    lookupSchema cycBadDoc.schemas "A" = some (.obj [("b", .ref "B")])
    ∧ lookupSchema cycBadDoc.schemas "B" = some (.obj [("a", .ref "A"), ("x", .prim "uuid")])
    ∧ (BuildSchema genZero cycBadDoc "p" "svc").2
        = ("", some (.unsupportedPrimitive "uuid")) := by
  refine ⟨by simp [cycBadDoc, lookupSchema], by simp [cycBadDoc, lookupSchema], ?_⟩
  have h : BuildTypes cycBadDoc (resetGenerator genZero "p" "svc")
      = .error (.unsupportedPrimitive "uuid") :=
    BuildTypesF_sound 32 cycBadDoc (resetGenerator genZero "p" "svc") _ rfl
  rw [BuildSchema_eq_error h]

/-- C4 (amended): for every schema document with self- or mutually-referential
SchemaNodes whose primitive kinds are all supported and whose conformant
operations have pairwise distinct handler identifiers, generation terminates
successfully, emits exactly one type declaration per distinct resolved name
(no duplicates, and one per name entered in the deduplication set), and
re-encountering an in-progress name emits a reference to the named type with
no recursion and no state change. -/
theorem C4_cycle_safe :
    ∀ (g : Generator) (s : SchemaDocument) (p n : String),
      docWellKinded s = true →
      (((operations s).filter (operationConformant s.schemas)).map handlerName).Nodup →
      (∃ g'' out, BuildSchema g s p n = (g'', out, none)
        ∧ (typeDeclNames g''.goSource.decls).Nodup
        ∧ (∀ nm, nm ∈ g''.generatedTypes ↔ nm ∈ typeDeclNames g''.goSource.decls))
      ∧ (∀ (nm : String) (gg : Generator), nm ∈ gg.generatedTypes →
          ∃ r, resolveNode s.schemas (.ref nm) gg = .ok r
            ∧ r.val = .named nm ∧ r.out = gg) := by
  intro g s p n hwk hnd
  constructor
  · obtain ⟨g1, h1⟩ := BuildTypes_ok s (resetGenerator g p n) hwk
    have hst := BuildTypes_stageExt s (resetGenerator g p n) g1 h1
    obtain ⟨new, d⟩ := hst.declsExt
    have hg1 : g1.goSource.decls = new := by
      have heq := d.eq
      rw [resetGenerator_decls] at heq
      rw [heq, List.nil_append]
    have hhn : handlerNames g1.goSource.decls = [] := by
      rw [hg1]
      exact d.noHandlers
    obtain ⟨g2, h2⟩ := synthesizeHandlers_ok_exists s.schemas (operations s) g1
      (by rw [hhn, List.nil_append]; exact hnd)
    obtain ⟨hdecls, hty, -, -, -⟩ := synthesizeHandlers_ok s.schemas (operations s) g1 g2 h2
    refine ⟨g2, renderFile g2.goSource, BuildSchema_eq_ok h1 h2, ?_, ?_⟩
    · rw [hdecls, typeDeclNames_append, typeDeclNames_map_handlerDecl, List.append_nil, hg1]
      exact d.tyNodup
    · intro nm
      rw [hdecls, typeDeclNames_append, typeDeclNames_map_handlerDecl, List.append_nil, hg1,
        hty]
      constructor
      · intro hmem
        rcases d.tyCover nm hmem with h' | h'
        · rw [resetGenerator_generatedTypes] at h'
          exact absurd h' (List.not_mem_nil nm)
        · exact h'
      · intro hmem
        exact (d.tyFresh nm hmem).2
  · intro nm gg hmem
    refine ⟨⟨.named nm, gg, List.Subset.refl _⟩, ?_, rfl, rfl⟩
    rw [resolveNode.eq_def]
    simp only [dif_pos hmem]

theorem C4_cycle_safe_witness :
    docWellKinded cycDoc = true
    ∧ ((((operations cycDoc).filter (operationConformant cycDoc.schemas)).map
        handlerName).Nodup)
    ∧ ((∃ g'' out, BuildSchema genZero cycDoc "p" "svc" = (g'', out, none)
        ∧ (typeDeclNames g''.goSource.decls).Nodup
        ∧ (∀ nm, nm ∈ g''.generatedTypes ↔ nm ∈ typeDeclNames g''.goSource.decls))
      ∧ (∀ (nm : String) (gg : Generator), nm ∈ gg.generatedTypes →
          ∃ r, resolveNode cycDoc.schemas (.ref nm) gg = .ok r
            ∧ r.val = .named nm ∧ r.out = gg))
    ∧ BuildSchema genZero cycDoc "p" "svc" = (cycFinal, renderFile cycFinal.goSource, none)
    ∧ typeDeclNames cycFinal.goSource.decls = ["B", "A"] := by
  have hwk : docWellKinded cycDoc = true := rfl
  have hnd : (((operations cycDoc).filter (operationConformant cycDoc.schemas)).map
      handlerName).Nodup := by decide
  have hrun : BuildSchema genZero cycDoc "p" "svc"
      = (cycFinal, renderFile cycFinal.goSource, none) :=
    BuildSchemaF_sound 32 genZero cycDoc "p" "svc" _ rfl
  exact ⟨hwk, hnd, C4_cycle_safe genZero cycDoc "p" "svc" hwk hnd, hrun, by decide⟩

/-- C6: when two distinct conformant operations resolve to the same emitted
handler identifier, the run fails with a naming-collision error and returns no
output, rather than silently overwriting one handler. -/
theorem C6_naming_collision :
    ∀ (g : Generator) (s : SchemaDocument) (p n : String) (g1 : Generator),
      BuildTypes s (resetGenerator g p n) = .ok g1 →
      ¬ (((operations s).filter (operationConformant s.schemas)).map handlerName).Nodup →
      ∃ nm, BuildSchema g s p n = (resetGenerator g p n, "", some (.namingCollision nm)) := by
  intro g s p n g1 h1 hdup
  have hst := BuildTypes_stageExt s (resetGenerator g p n) g1 h1
  obtain ⟨new, d⟩ := hst.declsExt
  have hhn : handlerNames g1.goSource.decls = [] := by
    have heq := d.eq
    rw [resetGenerator_decls] at heq
    rw [heq, List.nil_append]
    exact d.noHandlers
  obtain ⟨nm, hcol⟩ := synthesizeHandlers_collision s.schemas (operations s) g1
    (by rw [hhn]; exact List.nodup_nil)
    (by rw [hhn, List.nil_append]; exact hdup)
  exact ⟨nm, BuildSchema_eq_error2 h1 hcol⟩

theorem C6_naming_collision_witness :
    BuildTypes dupDoc (resetGenerator genZero "p" "svc")
        = .ok (resetGenerator genZero "p" "svc")
    ∧ ¬ (((operations dupDoc).filter (operationConformant dupDoc.schemas)).map
        handlerName).Nodup
    ∧ (∃ nm, BuildSchema genZero dupDoc "p" "svc"
        = (resetGenerator genZero "p" "svc", "", some (.namingCollision nm)))
    ∧ BuildSchema genZero dupDoc "p" "svc"
        = (resetGenerator genZero "p" "svc", "", some (.namingCollision "getItem")) := by
  have h1 : BuildTypes dupDoc (resetGenerator genZero "p" "svc")
      = .ok (resetGenerator genZero "p" "svc") :=
    BuildTypesF_sound 32 dupDoc (resetGenerator genZero "p" "svc") _ rfl
  have hdup : ¬ (((operations dupDoc).filter (operationConformant dupDoc.schemas)).map
      handlerName).Nodup := by decide
  have hcol : BuildSchema genZero dupDoc "p" "svc"
      = (resetGenerator genZero "p" "svc", "", some (.namingCollision "getItem")) := by
    have h2 : BuildHandler dupDoc (resetGenerator genZero "p" "svc")
        = .error (.namingCollision "getItem") := rfl
    exact BuildSchema_eq_error2 h1 h2
  exact ⟨h1, hdup, C6_naming_collision genZero dupDoc "p" "svc" _ h1 hdup, hcol⟩

/-- C7: an operation whose body does not match the JSON:API envelope shape —
any such body, be it a bare primitive, an array, an object without a data
member, or a reference to a non-envelope schema — is skipped: the operation is
non-conformant, type resolution ignores its body (resolving only its
parameters, with no error from the body), and handler synthesis behaves
exactly as if the operation were absent, emitting handlers for all other
conformant operations with no error. -/
theorem C7_nonconformant_skipped :
    ∀ (schemas : Schemas) (b : SchemaNode) (op : Operation),
      op.body = some b → isEnvelopeShape schemas b = false →
      operationConformant schemas op = false
      ∧ (∀ g, resolveOperation schemas op g = resolveParams schemas op.params g)
      ∧ (∀ ops1 ops2 g, synthesizeHandlers schemas (ops1 ++ op :: ops2) g
          = synthesizeHandlers schemas (ops1 ++ ops2) g) := by
  intro schemas b op hb henv
  have hconf : operationConformant schemas op = false := by
    simp [operationConformant, hb, henv]
  refine ⟨hconf, ?_, synthesizeHandlers_skip schemas op hconf⟩
  intro g
  simp only [resolveOperation, hb]
  cases hps : resolveParams schemas op.params g with
  | error e => rfl
  | ok g' =>
    dsimp only
    rw [if_neg (by simp [henv])]

theorem C7_nonconformant_skipped_witness :
    operationConformant [] primBodyOp = false
    ∧ resolveOperation [] primBodyOp genZero = resolveParams [] primBodyOp.params genZero
    ∧ synthesizeHandlers [] [primBodyOp, okOp] genZero
        = synthesizeHandlers [] [okOp] genZero
    ∧ synthesizeHandlers [] [primBodyOp, okOp] genZero
        = .ok (appendDecl genZero (.handlerDecl "a")) := by
  have h := C7_nonconformant_skipped [] (.prim "string") primBodyOp rfl rfl
  exact ⟨h.1, h.2.1 genZero, h.2.2 [] [okOp] genZero, rfl⟩

/-- C9 counterexample: in a successful run the generator provenance comment is
the first line of the serialized output, above the package header, not a
trailer following the declarations as the claim orders the sections. -/
theorem C9_provenance_counterexample :
    BuildSchema genZero emptyDoc "p" "svc"
        = (emptyFinal, renderFile emptyFinal.goSource, none)
    ∧ (renderLines emptyFinal.goSource).head? = some codeGeneratedComment
    ∧ (renderLines emptyFinal.goSource).getLast? ≠ some codeGeneratedComment
    ∧ codeGeneratedComment ∉ (renderLines emptyFinal.goSource).tail := by
  exact ⟨BuildSchemaF_sound 32 genZero emptyDoc "p" "svc" _ rfl, by decide, by decide, by decide⟩

/-- C9 (amended): every successful run serializes one source unit whose lines
are, in order: the generator provenance comment at the top of the file, the
package header, the import lines with the fixed aliases metrics and
opentracing for the two collaborator modules, then all type declarations
followed by all handler declarations. -/
theorem C9_output_structure :
    ∀ (g : Generator) (s : SchemaDocument) (p n : String) (g'' : Generator) (out : String),
      BuildSchema g s p n = (g'', out, none) →
      out = renderFile g''.goSource
      ∧ g''.goSource.packagePath = p
      ∧ g''.goSource.packageName = n
      ∧ g''.goSource.packageComments = [codeGeneratedComment]
      ∧ g''.goSource.importAliases
          = [(pkgJSONAPIMetrics, "metrics"), (pkgOpentracing, "opentracing")]
      ∧ renderLines g''.goSource
          = [codeGeneratedComment] ++ ["package " ++ n]
            ++ [(pkgJSONAPIMetrics, "metrics"), (pkgOpentracing, "opentracing")].map
                (fun pa => "import " ++ pa.2 ++ " \"" ++ pa.1 ++ "\"")
            ++ g''.goSource.decls.map renderDecl
      ∧ (∃ tds, g''.goSource.decls = tds
          ++ ((operations s).filter (operationConformant s.schemas)).map
              (fun op => Decl.handlerDecl (handlerName op))
          ∧ handlerNames tds = []) := by
  intro g s p n g'' out h
  obtain ⟨g1, h1, h2, hout⟩ := BuildSchema_ok_inv h
  obtain ⟨hdecls, -, -, hhd2, -⟩ := synthesizeHandlers_ok s.schemas (operations s) g1 g'' h2
  have hst := BuildTypes_stageExt s (resetGenerator g p n) g1 h1
  have hhd : headerOf g''.goSource = headerOf (resetGenerator g p n).goSource :=
    hhd2.trans hst.header
  rw [resetGenerator_goSource] at hhd
  simp only [headerOf, Prod.mk.injEq] at hhd
  obtain ⟨hpp, hpn, hpc, hpa⟩ := hhd
  obtain ⟨new, d⟩ := hst.declsExt
  have hg1 : handlerNames g1.goSource.decls = [] := by
    have heq := d.eq
    rw [resetGenerator_decls] at heq
    rw [heq, List.nil_append]
    exact d.noHandlers
  refine ⟨hout, hpp, hpn, hpc, hpa, ?_, g1.goSource.decls, hdecls, hg1⟩
  simp only [renderLines, hpc, hpn, hpa]

theorem C9_output_structure_witness :
    BuildSchema genZero emptyDoc "p" "svc"
        = (emptyFinal, renderFile emptyFinal.goSource, none)
    ∧ (renderFile emptyFinal.goSource = renderFile emptyFinal.goSource
      ∧ emptyFinal.goSource.packagePath = "p"
      ∧ emptyFinal.goSource.packageName = "svc"
      ∧ emptyFinal.goSource.packageComments = [codeGeneratedComment]
      ∧ emptyFinal.goSource.importAliases
          = [(pkgJSONAPIMetrics, "metrics"), (pkgOpentracing, "opentracing")]
      ∧ renderLines emptyFinal.goSource
          = [codeGeneratedComment] ++ ["package " ++ "svc"]
            ++ [(pkgJSONAPIMetrics, "metrics"), (pkgOpentracing, "opentracing")].map
                (fun pa => "import " ++ pa.2 ++ " \"" ++ pa.1 ++ "\"")
            ++ emptyFinal.goSource.decls.map renderDecl
      ∧ (∃ tds, emptyFinal.goSource.decls = tds
          ++ ((operations emptyDoc).filter (operationConformant emptyDoc.schemas)).map
              (fun op => Decl.handlerDecl (handlerName op))
          ∧ handlerNames tds = [])) := by
  have hrun : BuildSchema genZero emptyDoc "p" "svc"
      = (emptyFinal, renderFile emptyFinal.goSource, none) :=
    BuildSchemaF_sound 32 genZero emptyDoc "p" "svc" _ rfl
  exact ⟨hrun, C9_output_structure genZero emptyDoc "p" "svc" emptyFinal
    (renderFile emptyFinal.goSource) hrun⟩

/-- C10: BuildSource fetches over HTTP exactly when the source string starts
with http:// or https:// and otherwise treats the string as a filesystem path;
both branches parse the obtained bytes with the same loader and pass the
document to BuildSchema with the same package parameters; every URL-parse,
fetch, read or parse failure is returned with the empty string and BuildSchema
is never reached (the result is fixed before it). -/
theorem C10_buildsource_branches :
    (∀ (env : IOEnv) (g : Generator) (src p n : String) (e : Err),
      (strHasPre src "http://" || strHasPre src "https://") = true →
      env.urlParse src = .error e →
      BuildSource env g src p n = (g, "", some e))
    ∧ (∀ (env : IOEnv) (g : Generator) (src p n loc : String) (e : Err),
      (strHasPre src "http://" || strHasPre src "https://") = true →
      env.urlParse src = .ok loc →
      env.httpGet loc = .error e →
      BuildSource env g src p n = (g, "", some e))
    ∧ (∀ (env : IOEnv) (g : Generator) (src p n loc body : String) (e : Err),
      (strHasPre src "http://" || strHasPre src "https://") = true →
      env.urlParse src = .ok loc →
      env.httpGet loc = .ok body →
      env.loadSwaggerFromData body = .error e →
      BuildSource env g src p n = (g, "", some e))
    ∧ (∀ (env : IOEnv) (g : Generator) (src p n loc body : String) (schema : SchemaDocument),
      (strHasPre src "http://" || strHasPre src "https://") = true →
      env.urlParse src = .ok loc →
      env.httpGet loc = .ok body →
      env.loadSwaggerFromData body = .ok schema →
      BuildSource env g src p n = BuildSchema g schema p n)
    ∧ (∀ (env : IOEnv) (g : Generator) (src p n : String) (e : Err),
      (strHasPre src "http://" || strHasPre src "https://") = false →
      env.readFile src = .error e →
      BuildSource env g src p n = (g, "", some e))
    ∧ (∀ (env : IOEnv) (g : Generator) (src p n data : String) (e : Err),
      (strHasPre src "http://" || strHasPre src "https://") = false →
      env.readFile src = .ok data →
      env.loadSwaggerFromData data = .error e →
      BuildSource env g src p n = (g, "", some e))
    ∧ (∀ (env : IOEnv) (g : Generator) (src p n data : String) (schema : SchemaDocument),
      (strHasPre src "http://" || strHasPre src "https://") = false →
      env.readFile src = .ok data →
      env.loadSwaggerFromData data = .ok schema →
      BuildSource env g src p n = BuildSchema g schema p n) := by
  refine ⟨?_, ?_, ?_, ?_, ?_, ?_, ?_⟩
  · intro env g src p n e hp hu
    simp only [BuildSource, if_pos hp, hu]
  · intro env g src p n loc e hp hu hh
    simp only [BuildSource, if_pos hp, hu, loadSwaggerFromURI, hh]
  · intro env g src p n loc body e hp hu hh hd
    simp only [BuildSource, if_pos hp, hu, loadSwaggerFromURI, hh, hd]
  · intro env g src p n loc body schema hp hu hh hd
    simp only [BuildSource, if_pos hp, hu, loadSwaggerFromURI, hh, hd]
  · intro env g src p n e hp hf
    simp only [BuildSource, hp, Bool.false_eq_true, if_false, hf]
  · intro env g src p n data e hp hf hd
    simp only [BuildSource, hp, Bool.false_eq_true, if_false, hf, hd]
  · intro env g src p n data schema hp hf hd
    simp only [BuildSource, hp, Bool.false_eq_true, if_false, hf, hd]

theorem C10_buildsource_branches_witness :
    (strHasPre "http://x" "http://" || strHasPre "http://x" "https://") = true
    ∧ (strHasPre "ftp://y" "http://" || strHasPre "ftp://y" "https://") = false
    ∧ BuildSource envW genZero "http://x" "p" "svc" = BuildSchema genZero emptyDoc "p" "svc"
    ∧ BuildSource envW genZero "ftp://y" "p" "svc" = (genZero, "", some (.load "file"))
    ∧ BuildSource envW genZero "file.json" "p" "svc"
        = BuildSchema genZero emptyDoc "p" "svc" := by
  have hp1 : (strHasPre "http://x" "http://" || strHasPre "http://x" "https://") = true := by
    decide
  have hp2 : (strHasPre "ftp://y" "http://" || strHasPre "ftp://y" "https://") = false := by
    decide
  have hp3 : (strHasPre "file.json" "http://" || strHasPre "file.json" "https://") = false := by
    decide
  refine ⟨hp1, hp2, ?_, ?_, ?_⟩
  · exact C10_buildsource_branches.2.2.2.1 envW genZero "http://x" "p" "svc" "http://x"
      "body" emptyDoc hp1 rfl rfl rfl
  · exact C10_buildsource_branches.2.2.2.2.1 envW genZero "ftp://y" "p" "svc"
      (.load "file") hp2 rfl
  · exact C10_buildsource_branches.2.2.2.2.2.2 envW genZero "file.json" "p" "svc"
      "data" emptyDoc hp3 rfl rfl
